import Mathlib

/-!
# A 6502 emulator core (`CPU Emulator/src/main_6502.cpp`)

Shallow embedding of `struct Mem` and `struct CPU`.

* `Byte` (`unsigned char`), `Word` (`unsigned short`) and `u32` values are natural
  numbers; every place where the C++ arithmetic can leave the type's range carries an
  explicit `% 256`, `% 65536` or `% 4294967296`.
* `Mem::data` is a map from indices to cell values; the cells of the array are the
  indices below `MAX_MEM`.  The byte accessors `operator[]` are only ever applied to
  `Word` or `Byte` values and are total.  `writeWord` indexes with `address + 1`
  computed in `u32`, so it can step past the last cell: that store is outside the
  array and is modelled as a failure (`none`).
* A reference parameter (`u32& cycles`, `Mem& memory`) is threaded through as an
  argument and a component of the result; a by-value parameter is not.
* The `while` loop of `execute` is run with an iteration bound (`fuel`).
-/

namespace Emu6502

/-! ## Memory -/

/-- `Mem::MAX_MEM`: the number of cells. -/
def MAX_MEM : Nat := 1024 * 64

/-- `struct Mem`: the cell contents, by index. -/
structure Mem where
  data : Nat → Nat

namespace Mem

/-- `Byte operator[](u32 address) const`: read one cell. -/
def get (m : Mem) (address : Nat) : Nat :=
  m.data address

/-- `Byte& operator[](u32 address)` used as an assignment target: write one cell. -/
def set (m : Mem) (address : Nat) (value : Nat) : Mem :=
  ⟨fun i => if i = address then value else m.data i⟩

/-- The state after the first `n` rounds of the loop of `Mem::initialize`
(`i = 0, …, n - 1`, each doing `data[i] = 0`). -/
def initializeLoop (m : Mem) : Nat → Mem
  | 0 => m
  | n + 1 => (initializeLoop m n).set n 0

/-- `Mem::initialize` (the name is reserved in Lean): the loop runs while
`i < MAX_MEM`. -/
@[irreducible]
def initializeMem (m : Mem) : Mem :=
  initializeLoop m MAX_MEM

/-- `Mem::writeWord(Word word, u32 address, u32 cycles)`.  The two stores are
`data[address] = word & 0xFF` and `data[address + 1] = (word >> 8)`, each truncated to
a `Byte`; an index that is not below `MAX_MEM` is outside the array and gives `none`.
`cycles` is a by-value parameter: the second component of the result is the callee's
local copy after `cycles -= 2`, which the caller never sees. -/
def writeWord (m : Mem) (word address cycles : Nat) : Option (Mem × Nat) :=
  if address < MAX_MEM ∧ (address + 1) % 4294967296 < MAX_MEM then
    let m1 := m.set address ((word &&& 0xFF) % 256)
    let m2 := m1.set ((address + 1) % 4294967296) ((word >>> 8) % 256)
    some (m2, (cycles + 4294967294) % 4294967296)
  else
    none

/-- Every cell of the array holds a `Byte`. -/
def WF (m : Mem) : Prop :=
  ∀ a, a < MAX_MEM → m.data a < 256

end Mem

/-! ## CPU -/

/-- `struct CPU`: the two `Word` registers, the three `Byte` registers and the seven
one-bit status flags. -/
structure CPU where
  PC : Nat
  SP : Nat
  A : Nat
  X : Nat
  Y : Nat
  C : Nat
  Z : Nat
  I : Nat
  D : Nat
  B : Nat
  V : Nat
  N : Nat

/-- The opcodes. -/
def INS_LDA_IM : Nat := 0xA9
def INS_LDA_ZP : Nat := 0xA5
def INS_LDA_ZPX : Nat := 0xB5
def INS_JSR : Nat := 0x20

namespace CPU

/-- The values of a `CPU` lie in the ranges of their C++ types. -/
def WF (c : CPU) : Prop :=
  c.PC < 65536 ∧ c.SP < 65536 ∧ c.A < 256 ∧ c.X < 256 ∧ c.Y < 256 ∧
  c.C < 2 ∧ c.Z < 2 ∧ c.I < 2 ∧ c.D < 2 ∧ c.B < 2 ∧ c.V < 2 ∧ c.N < 2

/-- `CPU::reset(Mem& memory)`. -/
def reset (cpu : CPU) (memory : Mem) : CPU × Mem :=
  let cpu := { cpu with PC := 0xFFFC }
  let cpu := { cpu with SP := 0x0100 }
  let cpu := { cpu with D := 0 }
  let cpu := { cpu with A := 0, X := 0, Y := 0 }
  let cpu := { cpu with C := 0, Z := 0, I := 0, D := 0, B := 0, V := 0, N := 0 }
  (cpu, memory.initializeMem)

/-- `CPU::fetchByte(u32& cycles, Mem& memory)`: the byte read, the CPU with `PC++`
and the budget after `cycles--`. -/
def fetchByte (cpu : CPU) (cycles : Nat) (memory : Mem) : Nat × CPU × Nat :=
  let data := memory.get cpu.PC
  let cpu := { cpu with PC := (cpu.PC + 1) % 65536 }
  let cycles := (cycles + 4294967295) % 4294967296
  (data, cpu, cycles)

/-- `CPU::fetchWord(u32& cycles, Mem& memory)`: the word read, the CPU after the two
`PC++` and the budget after `cycles += 2`. -/
def fetchWord (cpu : CPU) (cycles : Nat) (memory : Mem) : Nat × CPU × Nat :=
  let data := memory.get cpu.PC
  let cpu := { cpu with PC := (cpu.PC + 1) % 65536 }
  let data := (data ||| (memory.get cpu.PC <<< 8)) % 65536
  let cpu := { cpu with PC := (cpu.PC + 1) % 65536 }
  let cycles := (cycles + 2) % 4294967296
  (data, cpu, cycles)

/-- `CPU::readByte(u32& cycles, Byte address, Mem& memory)`: the byte read and the
budget after `cycles--`. -/
def readByte (cycles : Nat) (address : Nat) (memory : Mem) : Nat × Nat :=
  let data := memory.get address
  let cycles := (cycles + 4294967295) % 4294967296
  (data, cycles)

/-- `CPU::LDASetStatus()`. -/
def LDASetStatus (cpu : CPU) : CPU :=
  let cpu := { cpu with Z := if cpu.A = 0 then 1 else 0 }
  { cpu with N := if (cpu.A &&& 0b10000000) > 0 then 1 else 0 }

end CPU

/-- What one call of `execute` works on: the CPU, the memory it borrows, the local
budget `cycles`, and the opcodes reported so far by the `printf` of the `default`
arm. -/
structure Machine where
  cpu : CPU
  mem : Mem
  cycles : Nat
  out : List Nat

namespace CPU

/-- The body of the `while` loop of `CPU::execute`: the opcode fetch and the `switch`.
`none` when the `writeWord` of the `INS_JSR` arm stores outside the memory array. -/
def executeBody (s : Machine) : Option Machine :=
  let (ins, cpu, cycles) := fetchByte s.cpu s.cycles s.mem
  if ins = INS_LDA_IM then
    let (value, cpu, cycles) := fetchByte cpu cycles s.mem
    let cpu := { cpu with A := value }
    let cpu := LDASetStatus cpu
    some { s with cpu := cpu, cycles := cycles }
  else if ins = INS_LDA_ZP then
    let (zeroPageAddress, cpu, cycles) := fetchByte cpu cycles s.mem
    let (value, cycles) := readByte cycles zeroPageAddress s.mem
    let cpu := { cpu with A := value }
    let cpu := LDASetStatus cpu
    some { s with cpu := cpu, cycles := cycles }
  else if ins = INS_LDA_ZPX then
    let (zeroPageAddress, cpu, cycles) := fetchByte cpu cycles s.mem
    let zeroPageAddress := (zeroPageAddress + cpu.X) % 256
    let cycles := (cycles + 4294967295) % 4294967296
    let (value, cycles) := readByte cycles zeroPageAddress s.mem
    let cpu := { cpu with A := value }
    some { s with cpu := cpu, cycles := cycles }
  else if ins = INS_JSR then
    let (address, cpu, cycles) := fetchWord cpu cycles s.mem
    match s.mem.writeWord ((cpu.PC + 65535) % 65536) cpu.SP cycles with
    | none => none
    | some (memory, _) =>
      let cpu := { cpu with PC := address }
      let cycles := (cycles + 4294967295) % 4294967296
      some { s with cpu := cpu, mem := memory, cycles := cycles }
  else
    some { s with cpu := cpu, cycles := cycles, out := s.out ++ [ins] }

end CPU

/-- How a bounded run of the loop of `execute` ends. -/
inductive Outcome where
  /-- The loop guard `cycles > 0` was found false in this state. -/
  | finished (s : Machine)
  /-- A store outside the memory array. -/
  | fault
  /-- The guard was still true after `fuel` rounds. -/
  | unfinished

namespace CPU

/-- The `while (cycles > 0)` loop of `CPU::execute`, for at most `fuel` rounds. -/
def executeLoop : Nat → Machine → Outcome
  | 0, s => if s.cycles > 0 then .unfinished else .finished s
  | fuel + 1, s =>
    if s.cycles > 0 then
      match executeBody s with
      | none => .fault
      | some s' => executeLoop fuel s'
    else .finished s

/-- `CPU::execute(u32 cycles, Mem& memory)`, for at most `fuel` rounds of its loop. -/
def execute (fuel : Nat) (cpu : CPU) (cycles : Nat) (memory : Mem) : Outcome :=
  executeLoop fuel ⟨cpu, memory, cycles, []⟩

end CPU

/-- An opcode that no arm of the `switch` handles. -/
def unhandled (ins : Nat) : Prop :=
  ins ≠ 0xA9 ∧ ins ≠ 0xA5 ∧ ins ≠ 0xB5 ∧ ins ≠ 0x20

/-- The five stores of the JSR test program in `main`. -/
def loadTestProgram (mem : Mem) : Mem :=
  let mem := mem.set 0xFFFC INS_JSR
  let mem := mem.set 0xFFFD 0x42
  let mem := mem.set 0xFFFE 0x42
  let mem := mem.set 0x4242 INS_LDA_IM
  let mem := mem.set 0x4243 0x64
  mem

/-- The function `main`: `reset`, the stores of the test program, and `execute(9)`.
The locals `mem` and `cpu` start uninitialised, so their first values are parameters. -/
def main (fuel : Nat) (cpu : CPU) (mem : Mem) : Outcome :=
  let (cpu, mem) := cpu.reset mem
  let mem := loadTestProgram mem
  cpu.execute fuel 9 mem

/-! ## Memory lemmas -/

theorem MAX_MEM_eq : MAX_MEM = 65536 := by decide

theorem Mem.get_set (m : Mem) (a v i : Nat) :
    (m.set a v).get i = if i = a then v else m.get i := by
  simp only [Mem.get, Mem.set]

theorem Mem.initializeLoop_data (m : Mem) (n i : Nat) :
    (m.initializeLoop n).data i = if i < n then 0 else m.data i := by
  induction n with
  | zero => simp [Mem.initializeLoop]
  | succ n ih =>
    simp only [Mem.initializeLoop, Mem.set, ih]
    by_cases h : i = n
    · simp [h]
    · by_cases h2 : i < n
      · have : i < n + 1 := by omega
        simp [h, h2, this]
      · have : ¬ i < n + 1 := by omega
        simp [h, h2, this]

theorem Mem.initializeMem_get (m : Mem) (i : Nat) :
    (m.initializeMem).get i = if i < 65536 then 0 else m.get i := by
  simp only [Mem.initializeMem, Mem.get, Mem.initializeLoop_data, MAX_MEM_eq]

/-! ## Arithmetic of bytes -/

/-- Masking with `0b10000000` isolates bit 7. -/
theorem and_128_eq (a : Nat) : a &&& 128 = if a.testBit 7 = true then 128 else 0 := by
  apply Nat.eq_of_testBit_eq
  intro i
  rw [Nat.testBit_and]
  have h128 : (128 : Nat) = 2 ^ 7 := by norm_num
  by_cases hi : i = 7
  · subst hi
    by_cases ha : a.testBit 7 = true
    · simp [ha, h128, Nat.testBit_two_pow_self]
    · simp [ha]
  · have h7 : Nat.testBit 128 i = false := by
      rw [h128]; exact Nat.testBit_two_pow_of_ne (fun h => hi h.symm)
    by_cases ha : a.testBit 7 = true
    · simp [ha, h7]
    · simp [ha, h7]

theorem and_128_pos_iff (a : Nat) : (a &&& 128 > 0) ↔ a.testBit 7 = true := by
  rw [and_128_eq]
  by_cases ha : a.testBit 7 = true <;> simp [ha]

theorem and_255_mod (w : Nat) : (w &&& 0xFF) % 256 = w % 256 := by
  have h := Nat.and_pow_two_sub_one_eq_mod w 8
  norm_num at h
  rw [h]
  exact Nat.mod_mod _ _

theorem and_255_eq_mod (w : Nat) : w &&& 0xFF = w % 256 := by
  have h := Nat.and_pow_two_sub_one_eq_mod w 8
  norm_num at h
  exact h

theorem shiftRight_8 (w : Nat) : w >>> 8 = w / 256 := by
  rw [Nat.shiftRight_eq_div_pow]

theorem word_of_bytes_lt (lo hi : Nat) (hlo : lo < 256) (hhi : hi < 256) :
    lo ||| (hi <<< 8) < 65536 := by
  have h16 : (65536 : Nat) = 2 ^ 16 := by norm_num
  rw [h16]
  apply Nat.or_lt_two_pow
  · omega
  · rw [Nat.shiftLeft_eq]; omega

/-! ## The loop of `execute` -/

theorem CPU.executeLoop_of_cycles_eq_zero (fuel : Nat) (s : Machine) (h : s.cycles = 0) :
    CPU.executeLoop fuel s = .finished s := by
  cases fuel <;> simp [CPU.executeLoop, h]

theorem CPU.executeLoop_succ (fuel : Nat) (s s' : Machine) (h : 0 < s.cycles)
    (hb : CPU.executeBody s = some s') :
    CPU.executeLoop (fuel + 1) s = CPU.executeLoop fuel s' := by
  simp [CPU.executeLoop, h, hb]

theorem CPU.executeLoop_fault (fuel : Nat) (s : Machine) (h : 0 < s.cycles)
    (hb : CPU.executeBody s = none) :
    CPU.executeLoop (fuel + 1) s = .fault := by
  simp [CPU.executeLoop, h, hb]

/-! ## The arms of the `switch` -/

theorem CPU.executeBody_LDA_IM (s : Machine) (h : s.mem.get s.cpu.PC = 0xA9) :
    CPU.executeBody s = some { s with
      cpu := CPU.LDASetStatus { s.cpu with
        PC := ((s.cpu.PC + 1) % 65536 + 1) % 65536,
        A := s.mem.get ((s.cpu.PC + 1) % 65536) },
      cycles := ((s.cycles + 4294967295) % 4294967296 + 4294967295) % 4294967296 } := by
  simp [CPU.executeBody, CPU.fetchByte, h, INS_LDA_IM]

theorem CPU.executeBody_LDA_ZP (s : Machine) (h : s.mem.get s.cpu.PC = 0xA5) :
    CPU.executeBody s = some { s with
      cpu := CPU.LDASetStatus { s.cpu with
        PC := ((s.cpu.PC + 1) % 65536 + 1) % 65536,
        A := s.mem.get (s.mem.get ((s.cpu.PC + 1) % 65536)) },
      cycles := (((s.cycles + 4294967295) % 4294967296 + 4294967295) % 4294967296
        + 4294967295) % 4294967296 } := by
  simp [CPU.executeBody, CPU.fetchByte, CPU.readByte, h, INS_LDA_IM, INS_LDA_ZP]

theorem CPU.executeBody_LDA_ZPX (s : Machine) (h : s.mem.get s.cpu.PC = 0xB5) :
    CPU.executeBody s = some { s with
      cpu := { s.cpu with
        PC := ((s.cpu.PC + 1) % 65536 + 1) % 65536,
        A := s.mem.get ((s.mem.get ((s.cpu.PC + 1) % 65536) + s.cpu.X) % 256) },
      cycles := ((((s.cycles + 4294967295) % 4294967296 + 4294967295) % 4294967296
        + 4294967295) % 4294967296 + 4294967295) % 4294967296 } := by
  simp [CPU.executeBody, CPU.fetchByte, CPU.readByte, h, INS_LDA_IM, INS_LDA_ZP,
    INS_LDA_ZPX]

theorem CPU.executeBody_default (s : Machine)
    (h1 : s.mem.get s.cpu.PC ≠ 0xA9) (h2 : s.mem.get s.cpu.PC ≠ 0xA5)
    (h3 : s.mem.get s.cpu.PC ≠ 0xB5) (h4 : s.mem.get s.cpu.PC ≠ 0x20) :
    CPU.executeBody s = some { s with
      cpu := { s.cpu with PC := (s.cpu.PC + 1) % 65536 },
      cycles := (s.cycles + 4294967295) % 4294967296,
      out := s.out ++ [s.mem.get s.cpu.PC] } := by
  simp [CPU.executeBody, CPU.fetchByte, h1, h2, h3, h4, INS_LDA_IM, INS_LDA_ZP,
    INS_LDA_ZPX, INS_JSR]

theorem Mem.writeWord_in_range (m : Mem) (word address cycles : Nat)
    (h : address + 1 < 65536) :
    m.writeWord word address cycles =
      some ((m.set address ((word &&& 0xFF) % 256)).set (address + 1) ((word >>> 8) % 256),
        (cycles + 4294967294) % 4294967296) := by
  have h1 : (address + 1) % 4294967296 = address + 1 := Nat.mod_eq_of_lt (by omega)
  have h2 : address < MAX_MEM ∧ (address + 1) % 4294967296 < MAX_MEM := by
    rw [h1, MAX_MEM_eq]; omega
  unfold Mem.writeWord
  rw [if_pos h2]
  simp only [h1]

theorem Mem.writeWord_out_of_range (m : Mem) (word address cycles : Nat)
    (h : 65535 ≤ address) :
    m.writeWord word address cycles = none := by
  have h2 : ¬ (address < MAX_MEM ∧ (address + 1) % 4294967296 < MAX_MEM) := by
    rw [MAX_MEM_eq]; omega
  unfold Mem.writeWord
  rw [if_neg h2]

theorem CPU.executeBody_JSR (s : Machine) (h : s.mem.get s.cpu.PC = 0x20)
    (hSP : s.cpu.SP + 1 < 65536) :
    CPU.executeBody s = some { s with
      cpu := { s.cpu with
        PC := (s.mem.get ((s.cpu.PC + 1) % 65536) |||
          (s.mem.get (((s.cpu.PC + 1) % 65536 + 1) % 65536) <<< 8)) % 65536 },
      mem := (s.mem.set s.cpu.SP
          ((((((s.cpu.PC + 1) % 65536 + 1) % 65536 + 1) % 65536 + 65535) % 65536
            &&& 0xFF) % 256)).set (s.cpu.SP + 1)
          (((((((s.cpu.PC + 1) % 65536 + 1) % 65536 + 1) % 65536 + 65535) % 65536)
            >>> 8) % 256),
      cycles := (((s.cycles + 4294967295) % 4294967296 + 2) % 4294967296
        + 4294967295) % 4294967296 } := by
  simp [CPU.executeBody, CPU.fetchByte, CPU.fetchWord, Mem.writeWord_in_range _ _ _ _ hSP,
    h, INS_LDA_IM, INS_LDA_ZP, INS_LDA_ZPX, INS_JSR]

theorem CPU.executeBody_JSR_fault (s : Machine) (h : s.mem.get s.cpu.PC = 0x20)
    (hSP : 65535 ≤ s.cpu.SP) :
    CPU.executeBody s = none := by
  simp [CPU.executeBody, CPU.fetchByte, CPU.fetchWord,
    Mem.writeWord_out_of_range _ _ _ _ hSP, h, INS_LDA_IM, INS_LDA_ZP, INS_LDA_ZPX, INS_JSR]

/-- More rounds do not change how a finished run ended. -/
theorem CPU.executeLoop_finished_add (fuel : Nat) (s r : Machine)
    (h : CPU.executeLoop fuel s = .finished r) (k : Nat) :
    CPU.executeLoop (fuel + k) s = .finished r := by
  induction fuel generalizing s with
  | zero =>
    by_cases hc : s.cycles > 0
    · simp [CPU.executeLoop, hc] at h
    · have hr : s = r := by simpa [CPU.executeLoop, hc] using h
      have h0 : s.cycles = 0 := by omega
      rw [Nat.zero_add, CPU.executeLoop_of_cycles_eq_zero k s h0, hr]
  | succ n ih =>
    by_cases hc : s.cycles > 0
    · cases hb : CPU.executeBody s with
      | none => simp [CPU.executeLoop, hc, hb] at h
      | some s' =>
        rw [CPU.executeLoop_succ n s s' hc hb] at h
        rw [show n + 1 + k = (n + k) + 1 by omega, CPU.executeLoop_succ (n + k) s s' hc hb]
        exact ih s' h
    · have h0 : s.cycles = 0 := by omega
      rw [CPU.executeLoop_of_cycles_eq_zero _ s h0] at h
      rw [CPU.executeLoop_of_cycles_eq_zero _ s h0]
      exact h

/-- A run has at most one final state, whatever bound it is given. -/
theorem CPU.executeLoop_finished_unique (f1 f2 : Nat) (s r1 r2 : Machine)
    (h1 : CPU.executeLoop f1 s = .finished r1) (h2 : CPU.executeLoop f2 s = .finished r2) :
    r1 = r2 := by
  have e1 := CPU.executeLoop_finished_add f1 s r1 h1 f2
  have e2 := CPU.executeLoop_finished_add f2 s r2 h2 f1
  rw [Nat.add_comm f2 f1, e1] at e2
  exact Outcome.finished.inj e2

/-! ## Reset -/

theorem CPU.reset_mem (cpu : CPU) (memory : Mem) :
    (cpu.reset memory).2 = memory.initializeMem := rfl

/-- C1 (reset determinism): whatever the CPU and the memory held before, after `reset`
each of the 65536 memory cells is 0, `A`, `X`, `Y` are 0, the seven flags are 0,
`PC = 0xFFFC` and `SP = 0x0100`. -/
theorem reset_determinism (cpu : CPU) (memory : Mem) :
    (∀ a : Fin 65536, (cpu.reset memory).2.get a.val = 0) ∧
    (cpu.reset memory).1.A = 0 ∧ (cpu.reset memory).1.X = 0 ∧
    (cpu.reset memory).1.Y = 0 ∧
    (cpu.reset memory).1.C = 0 ∧ (cpu.reset memory).1.Z = 0 ∧
    (cpu.reset memory).1.I = 0 ∧ (cpu.reset memory).1.D = 0 ∧
    (cpu.reset memory).1.B = 0 ∧ (cpu.reset memory).1.V = 0 ∧
    (cpu.reset memory).1.N = 0 ∧
    (cpu.reset memory).1.PC = 0xFFFC ∧ (cpu.reset memory).1.SP = 0x0100 := by
  refine ⟨?_, rfl, rfl, rfl, rfl, rfl, rfl, rfl, rfl, rfl, rfl, rfl, rfl⟩
  intro a
  show (memory.initializeMem).get a.val = 0
  rw [Mem.initializeMem_get, if_pos a.isLt]

/-! ## The status flags after a load -/

theorem CPU.LDASetStatus_Z (c : CPU) :
    (CPU.LDASetStatus c).Z = if c.A = 0 then 1 else 0 := rfl

theorem CPU.LDASetStatus_N (c : CPU) :
    (CPU.LDASetStatus c).N = if c.A.testBit 7 = true then 1 else 0 := by
  show (if (c.A &&& 128) > 0 then 1 else 0) = _
  by_cases h7 : c.A.testBit 7 = true
  · rw [if_pos ((and_128_pos_iff c.A).2 h7), if_pos h7]
  · rw [if_neg (fun h => h7 ((and_128_pos_iff c.A).1 h)), if_neg h7]

theorem CPU.LDASetStatus_Z_iff (c : CPU) : (CPU.LDASetStatus c).Z = 1 ↔ c.A = 0 := by
  rw [CPU.LDASetStatus_Z]
  by_cases h : c.A = 0 <;> simp [h]

theorem CPU.LDASetStatus_N_iff (c : CPU) :
    (CPU.LDASetStatus c).N = 1 ↔ c.A.testBit 7 = true := by
  rw [CPU.LDASetStatus_N]
  by_cases h : c.A.testBit 7 = true <;> simp [h]

/-! ## The LDA scenarios -/

/-- C2 (LDA immediate end to end): from the reset state, with `mem[0xFFFC] = 0xA9` and
`mem[0xFFFD] = v` for a byte `v`, `execute(2)` ends after one round of its loop, with
`A = v`, `Z = 1` iff `v = 0`, `N = 1` iff bit 7 of `v` is set, and `PC = 0xFFFE`. -/
theorem lda_immediate_end_to_end (cpu0 : CPU) (mem0 : Mem) (v : Nat) (_hv : v < 256)
    (fuel : Nat) :
    ∃ s, CPU.execute (fuel + 1) (cpu0.reset mem0).1 2
        (((cpu0.reset mem0).2.set 0xFFFC 0xA9).set 0xFFFD v) = .finished s ∧
      s.cpu.A = v ∧ (s.cpu.Z = 1 ↔ v = 0) ∧ (s.cpu.N = 1 ↔ v.testBit 7 = true) ∧
      s.cpu.Z = (if v = 0 then 1 else 0) ∧
      s.cpu.N = (if v.testBit 7 = true then 1 else 0) ∧
      s.cpu.PC = 0xFFFE := by
  have hop : (((cpu0.reset mem0).2.set 0xFFFC 0xA9).set 0xFFFD v).get 0xFFFC = 0xA9 := by
    simp [Mem.get_set]
  have harg : (((cpu0.reset mem0).2.set 0xFFFC 0xA9).set 0xFFFD v).get 0xFFFD = v := by
    simp [Mem.get_set]
  refine ⟨_, (CPU.executeLoop_succ fuel _ _ (Nat.zero_lt_two)
    (CPU.executeBody_LDA_IM _ hop)).trans
    (CPU.executeLoop_of_cycles_eq_zero _ _ (by
      show ((2 + 4294967295) % 4294967296 + 4294967295) % 4294967296 = 0
      norm_num)), ?_⟩
  refine ⟨harg, ?_, ?_, ?_, ?_, rfl⟩
  · refine (CPU.LDASetStatus_Z_iff _).trans ?_
    rw [show CPU.A _ = v from harg]
  · refine (CPU.LDASetStatus_N_iff _).trans ?_
    rw [show CPU.A _ = v from harg]
  · refine (CPU.LDASetStatus_Z _).trans ?_
    rw [show CPU.A _ = v from harg]
  · refine (CPU.LDASetStatus_N _).trans ?_
    rw [show CPU.A _ = v from harg]

/-- C2, at the byte `0x84`: `A = 0x84`, `Z = 0`, `N = 1`. -/
theorem lda_immediate_end_to_end_witness :
    (0x84 < 256) ∧
    ∃ s, CPU.execute (0 + 1) ((⟨0, 0, 0, 0, 0, 0, 0, 0, 0, 0, 0, 0⟩ : CPU).reset ⟨fun _ => 7⟩).1 2
        ((((⟨0, 0, 0, 0, 0, 0, 0, 0, 0, 0, 0, 0⟩ : CPU).reset ⟨fun _ => 7⟩).2.set
          0xFFFC 0xA9).set 0xFFFD 0x84) = .finished s ∧
      s.cpu.A = 0x84 ∧ (s.cpu.Z = 1 ↔ 0x84 = 0) ∧
      (s.cpu.N = 1 ↔ Nat.testBit 0x84 7 = true) ∧
      s.cpu.Z = (if 0x84 = 0 then 1 else 0) ∧
      s.cpu.N = (if Nat.testBit 0x84 7 = true then 1 else 0) ∧ s.cpu.PC = 0xFFFE :=
  ⟨by decide, lda_immediate_end_to_end _ _ 0x84 (by decide) 0⟩

/-- C3 (LDA zero-page end to end): from the reset state, with `mem[0xFFFC] = 0xA5`,
`mem[0xFFFD] = zp` and `mem[zp] = v` for bytes `zp` and `v`, `execute(3)` ends after
one round of its loop, with `A = v`, `Z = 1` iff `v = 0`, `N = 1` iff bit 7 of `v` is
set, and `PC = 0xFFFE`. -/
theorem lda_zero_page_end_to_end (cpu0 : CPU) (mem0 : Mem) (zp v : Nat) (hzp : zp < 256)
    (_hv : v < 256) (fuel : Nat) :
    ∃ s, CPU.execute (fuel + 1) (cpu0.reset mem0).1 3
        ((((cpu0.reset mem0).2.set 0xFFFC 0xA5).set 0xFFFD zp).set zp v) = .finished s ∧
      s.cpu.A = v ∧ (s.cpu.Z = 1 ↔ v = 0) ∧ (s.cpu.N = 1 ↔ v.testBit 7 = true) ∧
      s.cpu.Z = (if v = 0 then 1 else 0) ∧
      s.cpu.N = (if v.testBit 7 = true then 1 else 0) ∧
      s.cpu.PC = 0xFFFE := by
  have h1 : (65532 : Nat) ≠ zp := by omega
  have h2 : (65533 : Nat) ≠ zp := by omega
  have hop : ((((cpu0.reset mem0).2.set 0xFFFC 0xA5).set 0xFFFD zp).set zp v).get 0xFFFC
      = 0xA5 := by
    simp [Mem.get_set, h1]
  have harg : ((((cpu0.reset mem0).2.set 0xFFFC 0xA5).set 0xFFFD zp).set zp v).get 0xFFFD
      = zp := by
    simp [Mem.get_set, h2]
  have hval : ((((cpu0.reset mem0).2.set 0xFFFC 0xA5).set 0xFFFD zp).set zp v).get
      (((((cpu0.reset mem0).2.set 0xFFFC 0xA5).set 0xFFFD zp).set zp v).get 0xFFFD) = v := by
    rw [harg]; simp [Mem.get_set]
  refine ⟨_, (CPU.executeLoop_succ fuel _ _ (Nat.zero_lt_succ 2)
    (CPU.executeBody_LDA_ZP _ hop)).trans
    (CPU.executeLoop_of_cycles_eq_zero _ _ (by
      show (((3 + 4294967295) % 4294967296 + 4294967295) % 4294967296 + 4294967295)
        % 4294967296 = 0
      norm_num)), ?_⟩
  refine ⟨hval, ?_, ?_, ?_, ?_, rfl⟩
  · refine (CPU.LDASetStatus_Z_iff _).trans ?_
    rw [show CPU.A _ = v from hval]
  · refine (CPU.LDASetStatus_N_iff _).trans ?_
    rw [show CPU.A _ = v from hval]
  · refine (CPU.LDASetStatus_Z _).trans ?_
    rw [show CPU.A _ = v from hval]
  · refine (CPU.LDASetStatus_N _).trans ?_
    rw [show CPU.A _ = v from hval]

/-- C3, at `zp = 0x42`, `v = 0x37`: `A = 0x37`, `Z = 0`, `N = 0`. -/
theorem lda_zero_page_end_to_end_witness :
    (0x42 < 256) ∧ (0x37 < 256) ∧
    ∃ s, CPU.execute (0 + 1) ((⟨0, 0, 0, 0, 0, 0, 0, 0, 0, 0, 0, 0⟩ : CPU).reset ⟨fun _ => 7⟩).1 3
        (((((⟨0, 0, 0, 0, 0, 0, 0, 0, 0, 0, 0, 0⟩ : CPU).reset ⟨fun _ => 7⟩).2.set
          0xFFFC 0xA5).set 0xFFFD 0x42).set 0x42 0x37) = .finished s ∧
      s.cpu.A = 0x37 ∧ (s.cpu.Z = 1 ↔ 0x37 = 0) ∧
      (s.cpu.N = 1 ↔ Nat.testBit 0x37 7 = true) ∧
      s.cpu.Z = (if 0x37 = 0 then 1 else 0) ∧
      s.cpu.N = (if Nat.testBit 0x37 7 = true then 1 else 0) ∧ s.cpu.PC = 0xFFFE :=
  ⟨by decide, by decide, lda_zero_page_end_to_end _ _ 0x42 0x37 (by decide) (by decide) 0⟩

/-- C4 (LDA zero-page,X wraps inside the zero page): from the reset state, with
`X = x`, `mem[0xFFFC] = 0xB5`, `mem[0xFFFD] = zp` and `mem[(zp + x) mod 256] = v` for
bytes `x`, `zp`, `v`, `execute(4)` ends after one round of its loop with `A = v` and
`PC = 0xFFFE`.  In every state whose opcode is `0xB5` the byte loaded is the cell at
`(operand + X) mod 256`, an address in `0x0000..0x00FF`. -/
theorem lda_zero_page_x_wraps (cpu0 : CPU) (mem0 : Mem) (x zp v : Nat) (_hx : x < 256)
    (_hzp : zp < 256) (_hv : v < 256) (fuel : Nat) :
    (∃ s, CPU.execute (fuel + 1) { (cpu0.reset mem0).1 with X := x } 4
        ((((cpu0.reset mem0).2.set 0xFFFC 0xB5).set 0xFFFD zp).set ((zp + x) % 256) v)
          = .finished s ∧
      s.cpu.A = v ∧ s.cpu.PC = 0xFFFE ∧ s.cpu.A = s.mem.get ((zp + x) % 256)) ∧
    (∀ s : Machine, s.mem.get s.cpu.PC = 0xB5 → ∃ s', CPU.executeBody s = some s' ∧
      s'.cpu.A = s.mem.get ((s.mem.get ((s.cpu.PC + 1) % 65536) + s.cpu.X) % 256) ∧
      (s.mem.get ((s.cpu.PC + 1) % 65536) + s.cpu.X) % 256 ≤ 0xFF) := by
  have h0 : (zp + x) % 256 < 256 := Nat.mod_lt _ (by norm_num)
  have h1 : (65532 : Nat) ≠ (zp + x) % 256 := by omega
  have h2 : (65533 : Nat) ≠ (zp + x) % 256 := by omega
  have hop : ((((cpu0.reset mem0).2.set 0xFFFC 0xB5).set 0xFFFD zp).set
      ((zp + x) % 256) v).get 0xFFFC = 0xB5 := by
    simp [Mem.get_set, h1]
  have harg : ((((cpu0.reset mem0).2.set 0xFFFC 0xB5).set 0xFFFD zp).set
      ((zp + x) % 256) v).get 0xFFFD = zp := by
    simp [Mem.get_set, h2]
  have hcell : ((((cpu0.reset mem0).2.set 0xFFFC 0xB5).set 0xFFFD zp).set
      ((zp + x) % 256) v).get ((zp + x) % 256) = v := by
    simp [Mem.get_set]
  have hval : ((((cpu0.reset mem0).2.set 0xFFFC 0xB5).set 0xFFFD zp).set
      ((zp + x) % 256) v).get
      ((((((cpu0.reset mem0).2.set 0xFFFC 0xB5).set 0xFFFD zp).set
        ((zp + x) % 256) v).get 0xFFFD + x) % 256) = v := by
    rw [harg]; exact hcell
  refine ⟨⟨_, (CPU.executeLoop_succ fuel _ _ (Nat.zero_lt_succ 3)
    (CPU.executeBody_LDA_ZPX _ hop)).trans
    (CPU.executeLoop_of_cycles_eq_zero _ _ (by
      show ((((4 + 4294967295) % 4294967296 + 4294967295) % 4294967296 + 4294967295)
        % 4294967296 + 4294967295) % 4294967296 = 0
      norm_num)), hval, rfl, hval.trans hcell.symm⟩, ?_⟩
  intro s hs
  exact ⟨_, CPU.executeBody_LDA_ZPX s hs, rfl,
    Nat.le_of_lt_succ (Nat.mod_lt _ (by norm_num))⟩

/-- C4, at `x = 0xFF`, `zp = 0x80`, `v = 0x11`: the cell read is `0x007F`. -/
theorem lda_zero_page_x_wraps_witness :
    (0xFF < 256) ∧ (0x80 < 256) ∧ (0x11 < 256) ∧ ((0x80 + 0xFF) % 256 = 0x7F) ∧
    (∃ s, CPU.execute (0 + 1)
        { ((⟨0, 0, 0, 0, 0, 0, 0, 0, 0, 0, 0, 0⟩ : CPU).reset ⟨fun _ => 7⟩).1 with X := 0xFF } 4
        (((((⟨0, 0, 0, 0, 0, 0, 0, 0, 0, 0, 0, 0⟩ : CPU).reset ⟨fun _ => 7⟩).2.set
          0xFFFC 0xB5).set 0xFFFD 0x80).set ((0x80 + 0xFF) % 256) 0x11) = .finished s ∧
      s.cpu.A = 0x11 ∧ s.cpu.PC = 0xFFFE ∧ s.cpu.A = s.mem.get ((0x80 + 0xFF) % 256)) :=
  ⟨by decide, by decide, by decide, by decide,
    (lda_zero_page_x_wraps _ _ 0xFF 0x80 0x11 (by decide) (by decide) (by decide) 0).1⟩

/-- C5 (the flags after LDA zero-page,X), evaluated: from the reset state `execute(4)` on
the opcode `0xB5` loads `0x00` and leaves `Z = 0`, and loads `0x84` and leaves `N = 0`;
the arm never calls `LDASetStatus`. -/
theorem lda_zero_page_x_leaves_flags (cpu0 : CPU) (mem0 : Mem) :
    (∃ s, CPU.execute 1 (cpu0.reset mem0).1 4 ((cpu0.reset mem0).2.set 0xFFFC 0xB5)
        = .finished s ∧ s.cpu.A = 0x00 ∧ s.cpu.Z = 0) ∧
    (∃ s, CPU.execute 1 (cpu0.reset mem0).1 4
        ((((cpu0.reset mem0).2.set 0xFFFC 0xB5).set 0xFFFD 0x10).set 0x10 0x84)
        = .finished s ∧ s.cpu.A = 0x84 ∧ s.cpu.N = 0) := by
  have hcyc : ((((4 + 4294967295) % 4294967296 + 4294967295) % 4294967296 + 4294967295)
        % 4294967296 + 4294967295) % 4294967296 = 0 := by norm_num
  constructor
  · have hop : ((cpu0.reset mem0).2.set 0xFFFC 0xB5).get 0xFFFC = 0xB5 := by
      simp [Mem.get_set]
    have hval : ((cpu0.reset mem0).2.set 0xFFFC 0xB5).get
        ((((cpu0.reset mem0).2.set 0xFFFC 0xB5).get 0xFFFD + 0) % 256) = 0 := by
      simp [Mem.get_set, CPU.reset_mem, Mem.initializeMem_get]
    exact ⟨_, (CPU.executeLoop_succ 0 _ _ (Nat.zero_lt_succ 3)
      (CPU.executeBody_LDA_ZPX _ hop)).trans
      (CPU.executeLoop_of_cycles_eq_zero _ _ hcyc), hval, rfl⟩
  · have hop : ((((cpu0.reset mem0).2.set 0xFFFC 0xB5).set 0xFFFD 0x10).set 0x10 0x84).get
        0xFFFC = 0xB5 := by
      simp [Mem.get_set]
    have hval : ((((cpu0.reset mem0).2.set 0xFFFC 0xB5).set 0xFFFD 0x10).set 0x10 0x84).get
        ((((((cpu0.reset mem0).2.set 0xFFFC 0xB5).set 0xFFFD 0x10).set 0x10 0x84).get 0xFFFD
          + 0) % 256) = 0x84 := by
      simp [Mem.get_set]
    exact ⟨_, (CPU.executeLoop_succ 0 _ _ (Nat.zero_lt_succ 3)
      (CPU.executeBody_LDA_ZPX _ hop)).trans
      (CPU.executeLoop_of_cycles_eq_zero _ _ hcyc), hval, rfl⟩

/-! ## JSR -/

/-- C6 (JSR transfers control and stashes the return address): in a state with
`SP = 0x0100`, `PC = p`, `mem[p] = 0x20` and a positive budget, one round of the loop
sets `PC` to `mem[p+1] | (mem[p+2] << 8)` (addresses modulo 65536), stores the word
`(p + 2) mod 65536` with its low byte at `0x0100` and its high byte at `0x0101`, changes
no other cell and leaves `SP = 0x0100`. -/
theorem jsr_transfers_control (s : Machine) (hm : s.mem.WF) (hSP : s.cpu.SP = 0x0100)
    (hop : s.mem.get s.cpu.PC = 0x20) (hc : 0 < s.cycles) :
    ∃ s', CPU.executeBody s = some s' ∧
      (∀ fuel, CPU.executeLoop (fuel + 1) s = CPU.executeLoop fuel s') ∧
      s'.cpu.PC = s.mem.get ((s.cpu.PC + 1) % 65536) |||
        (s.mem.get ((s.cpu.PC + 2) % 65536) <<< 8) ∧
      s'.mem.get 0x0100 = ((s.cpu.PC + 2) % 65536) % 256 ∧
      s'.mem.get 0x0101 = ((s.cpu.PC + 2) % 65536) / 256 ∧
      (∀ b, b ≠ 0x0100 → b ≠ 0x0101 → s'.mem.get b = s.mem.get b) ∧
      s'.cpu.SP = 0x0100 := by
  have hb := CPU.executeBody_JSR s hop (by rw [hSP]; norm_num)
  have hp2 : ((s.cpu.PC + 1) % 65536 + 1) % 65536 = (s.cpu.PC + 2) % 65536 := by omega
  have hw : ((((s.cpu.PC + 1) % 65536 + 1) % 65536 + 1) % 65536 + 65535) % 65536
      = (s.cpu.PC + 2) % 65536 := by omega
  have hlo : s.mem.get ((s.cpu.PC + 1) % 65536) < 256 :=
    hm _ (by rw [MAX_MEM_eq]; omega)
  have hhi : s.mem.get ((s.cpu.PC + 2) % 65536) < 256 :=
    hm _ (by rw [MAX_MEM_eq]; omega)
  rw [hw, hp2, hSP] at hb
  refine ⟨_, hb, fun fuel => CPU.executeLoop_succ fuel s _ hc hb, ?_, ?_, ?_, ?_, hSP⟩
  · exact Nat.mod_eq_of_lt (word_of_bytes_lt _ _ hlo hhi)
  · show ((s.mem.set 0x0100 _).set (0x0100 + 1) _).get 0x0100 = _
    rw [Mem.get_set, if_neg (by norm_num), Mem.get_set, if_pos rfl, and_255_mod]
  · show ((s.mem.set 0x0100 _).set (0x0100 + 1) _).get 0x0101 = _
    rw [Mem.get_set, if_pos (by norm_num), shiftRight_8]
    omega
  · intro b hb0 hb1
    show ((s.mem.set 0x0100 _).set (0x0100 + 1) _).get b = _
    rw [Mem.get_set, if_neg (by simpa using hb1), Mem.get_set, if_neg hb0]

/-- C6, at a JSR found at `0xFFFC` in a memory filled with `0x20`. -/
theorem jsr_transfers_control_witness :
    ∃ s', CPU.executeBody ⟨⟨0xFFFC, 0x0100, 0, 0, 0, 0, 0, 0, 0, 0, 0, 0⟩, ⟨fun _ => 0x20⟩, 6, []⟩
        = some s' ∧
      (∀ fuel, CPU.executeLoop (fuel + 1)
          ⟨⟨0xFFFC, 0x0100, 0, 0, 0, 0, 0, 0, 0, 0, 0, 0⟩, ⟨fun _ => 0x20⟩, 6, []⟩
        = CPU.executeLoop fuel s') ∧
      s'.cpu.PC = (⟨fun _ => 0x20⟩ : Mem).get ((0xFFFC + 1) % 65536) |||
        ((⟨fun _ => 0x20⟩ : Mem).get ((0xFFFC + 2) % 65536) <<< 8) ∧
      s'.mem.get 0x0100 = ((0xFFFC + 2) % 65536) % 256 ∧
      s'.mem.get 0x0101 = ((0xFFFC + 2) % 65536) / 256 ∧
      (∀ b, b ≠ 0x0100 → b ≠ 0x0101 → s'.mem.get b = (⟨fun _ => 0x20⟩ : Mem).get b) ∧
      s'.cpu.SP = 0x0100 :=
  jsr_transfers_control
    ⟨⟨0xFFFC, 0x0100, 0, 0, 0, 0, 0, 0, 0, 0, 0, 0⟩, ⟨fun _ => 0x20⟩, 6, []⟩
    (fun _ _ => (by decide : (0x20 : Nat) < 256)) rfl rfl (by decide)

/-- The JSR arm, with the budget in the range of `u32`: the net change of the budget is
`- 1 + 2 - 1`, the `cycles -= 2` of `writeWord` being made on a copy. -/
theorem CPU.executeBody_JSR_spec (s : Machine) (hop : s.mem.get s.cpu.PC = 0x20)
    (hSP : s.cpu.SP + 1 < 65536) (hc1 : 0 < s.cycles) (hc2 : s.cycles < 4294967296) :
    ∃ s', CPU.executeBody s = some s' ∧
      s'.cpu = { s.cpu with PC := (s.mem.get ((s.cpu.PC + 1) % 65536) |||
        (s.mem.get ((s.cpu.PC + 2) % 65536) <<< 8)) % 65536 } ∧
      s'.mem = (s.mem.set s.cpu.SP ((s.cpu.PC + 2) % 65536 % 256)).set (s.cpu.SP + 1)
        ((s.cpu.PC + 2) % 65536 / 256) ∧
      s'.cycles = s.cycles ∧ s'.out = s.out := by
  have hb := CPU.executeBody_JSR s hop hSP
  have hp2 : ((s.cpu.PC + 1) % 65536 + 1) % 65536 = (s.cpu.PC + 2) % 65536 := by omega
  have hw : ((((s.cpu.PC + 1) % 65536 + 1) % 65536 + 1) % 65536 + 65535) % 65536
      = (s.cpu.PC + 2) % 65536 := by omega
  have hhi : ((s.cpu.PC + 2) % 65536 / 256) % 256 = (s.cpu.PC + 2) % 65536 / 256 := by
    omega
  have hcy : (((s.cycles + 4294967295) % 4294967296 + 2) % 4294967296
        + 4294967295) % 4294967296 = s.cycles := by omega
  rw [hw, hp2, and_255_mod, shiftRight_8, hhi, hcy] at hb
  exact ⟨_, hb, rfl, rfl, rfl, rfl⟩

/-- The LDA-immediate arm, with a budget of at least 2 in the range of `u32`. -/
theorem CPU.executeBody_LDA_IM_spec (s : Machine) (hop : s.mem.get s.cpu.PC = 0xA9)
    (hc1 : 2 ≤ s.cycles) (hc2 : s.cycles < 4294967296) :
    ∃ s', CPU.executeBody s = some s' ∧
      s'.cpu = CPU.LDASetStatus { s.cpu with
        PC := (s.cpu.PC + 2) % 65536, A := s.mem.get ((s.cpu.PC + 1) % 65536) } ∧
      s'.mem = s.mem ∧ s'.cycles = s.cycles - 2 ∧ s'.out = s.out := by
  have hb := CPU.executeBody_LDA_IM s hop
  have hp2 : ((s.cpu.PC + 1) % 65536 + 1) % 65536 = (s.cpu.PC + 2) % 65536 := by omega
  have hcy : ((s.cycles + 4294967295) % 4294967296 + 4294967295) % 4294967296
      = s.cycles - 2 := by omega
  rw [hp2, hcy] at hb
  exact ⟨_, hb, rfl, rfl, rfl, rfl⟩

/-- A stretch of `n` unhandled opcodes met with a budget of `n`: the loop makes `n`
rounds, each moving `PC` by one, and stops. -/
theorem CPU.executeLoop_unhandled_run (n : Nat) (s : Machine) (hcyc : s.cycles = n)
    (hn : n < 4294967296)
    (hops : ∀ i, i < n → unhandled (s.mem.get ((s.cpu.PC + i) % 65536))) (hPC : s.cpu.PC < 65536) :
    ∃ r, CPU.executeLoop n s = .finished r ∧
      r.cpu = { s.cpu with PC := (s.cpu.PC + n) % 65536 } ∧ r.mem = s.mem ∧ r.cycles = 0 := by
  induction n generalizing s with
  | zero =>
    refine ⟨s, CPU.executeLoop_of_cycles_eq_zero 0 s hcyc, ?_, rfl, hcyc⟩
    show s.cpu = { s.cpu with PC := (s.cpu.PC + 0) % 65536 }
    rw [Nat.add_zero, Nat.mod_eq_of_lt hPC]
  | succ n ih =>
    have h0 := hops 0 (Nat.succ_pos n)
    rw [Nat.add_zero, Nat.mod_eq_of_lt hPC] at h0
    obtain ⟨h1, h2, h3, h4⟩ := h0
    have hb := CPU.executeBody_default s h1 h2 h3 h4
    have hcy : (s.cycles + 4294967295) % 4294967296 = n := by omega
    rw [hcy] at hb
    generalize hs1 : ({ s with
      cpu := { s.cpu with PC := (s.cpu.PC + 1) % 65536 },
      cycles := n,
      out := s.out ++ [s.mem.get s.cpu.PC] } : Machine) = s1 at hb
    have e1 : s1.cpu = { s.cpu with PC := (s.cpu.PC + 1) % 65536 } := by rw [← hs1]
    have e2 : s1.mem = s.mem := by rw [← hs1]
    have e3 : s1.cycles = n := by rw [← hs1]
    have e4 : s1.cpu.PC = (s.cpu.PC + 1) % 65536 := by rw [e1]
    obtain ⟨r, hr, hrc, hrm, hrz⟩ := ih s1 e3 (by omega)
      (by
        intro i hi
        have := hops (i + 1) (by omega)
        have e : ((s.cpu.PC + 1) % 65536 + i) % 65536 = (s.cpu.PC + (i + 1)) % 65536 := by
          omega
        rw [e2, e4, e]; exact this)
      (by rw [e4]; exact Nat.mod_lt _ (by norm_num))
    refine ⟨r, ?_, ?_, hrm.trans e2, hrz⟩
    · rw [CPU.executeLoop_succ n s s1 (by omega) hb]; exact hr
    · rw [hrc, e4, e1]
      have e : ((s.cpu.PC + 1) % 65536 + n) % 65536 = (s.cpu.PC + (n + 1)) % 65536 := by
        omega
      rw [e]

/-- The JSR test program of `main`, on any memory that holds it and is zero on
`0x4244..0x424A`: the JSR round leaves the budget at 9, the LDA round at 7, and seven
rounds on unhandled `0x00` bytes use up the rest. -/
theorem CPU.jsr_program_run (c : CPU) (P : Mem) (hPC : c.PC = 0xFFFC) (hSP : c.SP = 0x0100)
    (h1 : P.get 0xFFFC = 0x20) (h2 : P.get 0xFFFD = 0x42) (h3 : P.get 0xFFFE = 0x42)
    (h4 : P.get 0x4242 = 0xA9) (h5 : P.get 0x4243 = 0x64)
    (h6 : ∀ a, 0x4244 ≤ a → a < 0x424B → P.get a = 0) :
    ∃ s1 s2 s, CPU.executeBody ⟨c, P, 9, []⟩ = some s1 ∧ CPU.executeBody s1 = some s2 ∧
      s2.cpu.PC = 0x4244 ∧ s2.cpu.A = 0x64 ∧ s2.cycles = 7 ∧
      CPU.executeLoop 9 ⟨c, P, 9, []⟩ = .finished s ∧
      s.cpu.PC = 0x424B ∧ s.cpu.A = 0x64 ∧ s.mem.get 0x0100 = 0xFE ∧
      s.mem.get 0x0101 = 0xFF := by
  obtain ⟨s1, hb1, c1, m1, y1, -⟩ := CPU.executeBody_JSR_spec ⟨c, P, 9, []⟩
    (by show P.get c.PC = 0x20; rw [hPC]; exact h1)
    (by show c.SP + 1 < 65536; rw [hSP]; norm_num)
    (by show 0 < 9; norm_num) (by show 9 < 4294967296; norm_num)
  dsimp only at c1 m1 y1
  rw [hPC] at c1 m1
  rw [hSP] at m1
  norm_num at c1 m1
  rw [h2, h3, show (66 ||| 66 <<< 8) % 65536 = 16962 by decide] at c1
  have p1 : s1.cpu.PC = 16962 := by rw [c1]
  have g1 : ∀ a, a ≠ 256 → a ≠ 257 → s1.mem.get a = P.get a := by
    intro a ha hb
    rw [m1, Mem.get_set, if_neg hb, Mem.get_set, if_neg ha]
  obtain ⟨s2, hb2, c2, m2, y2, -⟩ := CPU.executeBody_LDA_IM_spec s1
    (by rw [p1, g1 _ (by norm_num) (by norm_num)]; exact h4) (by omega) (by omega)
  rw [p1, g1 _ (by norm_num) (by norm_num)] at c2
  norm_num at c2
  rw [h5] at c2
  rw [y1] at y2
  have p2 : s2.cpu.PC = 16964 := by rw [c2]; rfl
  have a2 : s2.cpu.A = 100 := by rw [c2]; rfl
  obtain ⟨r, hr, cr, mr, -⟩ := CPU.executeLoop_unhandled_run 7 s2 y2 (by norm_num)
    (by
      intro i hi
      rw [p2, m2, Nat.mod_eq_of_lt (by omega), g1 _ (by omega) (by omega),
        h6 _ (by omega) (by omega)]
      exact ⟨by decide, by decide, by decide, by decide⟩)
    (by rw [p2]; norm_num)
  refine ⟨s1, s2, r, hb1, hb2, p2, a2, y2, ?_, ?_, ?_, ?_, ?_⟩
  · rw [CPU.executeLoop_succ 8 _ s1 (by show 0 < 9; norm_num) hb1,
      CPU.executeLoop_succ 7 s1 s2 (by omega) hb2]
    exact hr
  · rw [cr, p2]
  · rw [cr]; exact a2
  · rw [mr, m2, m1, Mem.get_set, if_neg (by norm_num), Mem.get_set, if_pos rfl]
  · rw [mr, m2, m1, Mem.get_set, if_pos rfl]

theorem loadTestProgram_get (cpu0 : CPU) (mem0 : Mem) :
    (loadTestProgram (cpu0.reset mem0).2).get 0xFFFC = 0x20 ∧
    (loadTestProgram (cpu0.reset mem0).2).get 0xFFFD = 0x42 ∧
    (loadTestProgram (cpu0.reset mem0).2).get 0xFFFE = 0x42 ∧
    (loadTestProgram (cpu0.reset mem0).2).get 0x4242 = 0xA9 ∧
    (loadTestProgram (cpu0.reset mem0).2).get 0x4243 = 0x64 ∧
    (∀ a, 0x4244 ≤ a → a < 0x424B → (loadTestProgram (cpu0.reset mem0).2).get a = 0) := by
  refine ⟨?_, ?_, ?_, ?_, ?_, ?_⟩
  · simp [loadTestProgram, Mem.get_set, INS_JSR]
  · simp [loadTestProgram, Mem.get_set]
  · simp [loadTestProgram, Mem.get_set]
  · simp [loadTestProgram, Mem.get_set, INS_LDA_IM]
  · simp [loadTestProgram, Mem.get_set]
  · intro a h1 h2
    have e1 : a ≠ 16963 := by omega
    have e2 : a ≠ 16962 := by omega
    have e3 : a ≠ 65534 := by omega
    have e4 : a ≠ 65533 := by omega
    have e5 : a ≠ 65532 := by omega
    have e6 : a < 65536 := by omega
    simp [loadTestProgram, Mem.get_set, e1, e2, e3, e4, e5, e6, CPU.reset_mem,
      Mem.initializeMem_get]

theorem main_eq (fuel : Nat) (cpu0 : CPU) (mem0 : Mem) :
    main fuel cpu0 mem0 =
      CPU.executeLoop fuel ⟨(cpu0.reset mem0).1, loadTestProgram (cpu0.reset mem0).2, 9, []⟩ :=
  rfl

/-- C7 as stated fails: no run of the JSR scenario of `main` ends with `PC = 0x4244`. -/
theorem jsr_scenario_final_pc_counterexample :
    ¬ ∃ fuel s, main fuel ⟨0, 0, 0, 0, 0, 0, 0, 0, 0, 0, 0, 0⟩ ⟨fun _ => 0⟩ = .finished s ∧
      s.cpu.PC = 0x4244 := by
  rintro ⟨fuel, s, hs, hpc⟩
  obtain ⟨h1, h2, h3, h4, h5, h6⟩ :=
    loadTestProgram_get ⟨0, 0, 0, 0, 0, 0, 0, 0, 0, 0, 0, 0⟩ ⟨fun _ => 0⟩
  obtain ⟨s1, s2, r, -, -, -, -, -, hr, hrpc, -⟩ :=
    CPU.jsr_program_run
      ((⟨0, 0, 0, 0, 0, 0, 0, 0, 0, 0, 0, 0⟩ : CPU).reset ⟨fun _ => 0⟩).1 _ rfl rfl
      h1 h2 h3 h4 h5 h6
  rw [main_eq] at hs
  have e := CPU.executeLoop_finished_unique _ _ _ _ _ hs hr
  rw [e, hrpc] at hpc
  exact absurd hpc (by decide)

/-- C7, amended (the JSR scenario end to end): from the reset state with the test
program loaded, the first two rounds of `execute(9)` (the JSR and the LDA immediate)
reach `PC = 0x4244` with `A = 0x64` and a budget that is still positive, and the run
ends, for every bound of at least 9 rounds, with `A = 0x64`, `mem[0x0100] = 0xFE`,
`mem[0x0101] = 0xFF` and `PC` no longer `0x4244`. -/
theorem jsr_scenario_end_to_end (cpu0 : CPU) (mem0 : Mem) (k : Nat) :
    ∃ s1 s2 s,
      CPU.executeBody ⟨(cpu0.reset mem0).1, loadTestProgram (cpu0.reset mem0).2, 9, []⟩
        = some s1 ∧
      CPU.executeBody s1 = some s2 ∧ s2.cpu.PC = 0x4244 ∧ s2.cpu.A = 0x64 ∧ 0 < s2.cycles ∧
      main (9 + k) cpu0 mem0 = .finished s ∧
      s.cpu.A = 0x64 ∧ s.mem.get 0x0100 = 0xFE ∧ s.mem.get 0x0101 = 0xFF ∧
      s.cpu.PC ≠ 0x4244 := by
  obtain ⟨h1, h2, h3, h4, h5, h6⟩ := loadTestProgram_get cpu0 mem0
  obtain ⟨s1, s2, r, hb1, hb2, p2, a2, y2, hr, hpc, ha, hm0, hm1⟩ :=
    CPU.jsr_program_run (cpu0.reset mem0).1 _ rfl rfl h1 h2 h3 h4 h5 h6
  refine ⟨s1, s2, r, hb1, hb2, p2, a2, by omega, ?_, ha, hm0, hm1, by omega⟩
  rw [main_eq]
  exact CPU.executeLoop_finished_add 9 _ r hr k

/-- C8 (the cost of JSR), evaluated: a round on the opcode `0x20` started with a budget
`c ≥ 6` hands the budget `c` to the next evaluation of the loop guard, not `c - 6`. -/
theorem jsr_round_keeps_budget (s : Machine) (hop : s.mem.get s.cpu.PC = 0x20)
    (hSP : s.cpu.SP + 1 < 65536) (hc1 : 6 ≤ s.cycles) (hc2 : s.cycles < 4294967296) :
    ∃ s', CPU.executeBody s = some s' ∧
      (∀ fuel, CPU.executeLoop (fuel + 1) s = CPU.executeLoop fuel s') ∧
      s'.cycles = s.cycles ∧ s'.cycles ≠ s.cycles - 6 := by
  obtain ⟨s', hb, -, -, hy, -⟩ := CPU.executeBody_JSR_spec s hop hSP (by omega) hc2
  exact ⟨s', hb, fun fuel => CPU.executeLoop_succ fuel s s' (by omega) hb, hy, by omega⟩

/-- C8, at a JSR found at `0xFFFC` with `SP = 0x0100` and a budget of 9. -/
theorem jsr_round_keeps_budget_witness :
    ∃ s', CPU.executeBody ⟨⟨0xFFFC, 0x0100, 0, 0, 0, 0, 0, 0, 0, 0, 0, 0⟩, ⟨fun _ => 0x20⟩, 9, []⟩
        = some s' ∧
      (∀ fuel, CPU.executeLoop (fuel + 1)
          ⟨⟨0xFFFC, 0x0100, 0, 0, 0, 0, 0, 0, 0, 0, 0, 0⟩, ⟨fun _ => 0x20⟩, 9, []⟩
        = CPU.executeLoop fuel s') ∧
      s'.cycles = 9 ∧ s'.cycles ≠ 9 - 6 :=
  jsr_round_keeps_budget
    ⟨⟨0xFFFC, 0x0100, 0, 0, 0, 0, 0, 0, 0, 0, 0, 0⟩, ⟨fun _ => 0x20⟩, 9, []⟩
    rfl (by decide) (by decide) (by decide)

/-! ## Unknown opcodes -/

/-- C9 (an unknown opcode is not fatal and costs only the opcode fetch): in a state
whose opcode is none of `0xA9`, `0xA5`, `0xB5`, `0x20`, with a budget `c ≥ 1`, one round
of the loop changes `PC` to `(PC + 1) mod 65536` and the budget to `c - 1`, reports the
opcode, leaves every other register, every flag and the memory as they were, and the
loop goes on from there; from the reset state with `mem[0xFFFC] = 0x02`, `execute(1)`
ends with `PC = 0xFFFD` and nothing else changed. -/
theorem unknown_opcode_round (s : Machine) (h : unhandled (s.mem.get s.cpu.PC))
    (hc1 : 1 ≤ s.cycles) (hc2 : s.cycles < 4294967296) :
    (∃ s', CPU.executeBody s = some s' ∧
      s'.cpu = { s.cpu with PC := (s.cpu.PC + 1) % 65536 } ∧
      s'.cycles = s.cycles - 1 ∧ s'.mem = s.mem ∧
      s'.out = s.out ++ [s.mem.get s.cpu.PC] ∧
      (∀ fuel, CPU.executeLoop (fuel + 1) s = CPU.executeLoop fuel s')) ∧
    (∀ (cpu0 : CPU) (mem0 : Mem) (fuel : Nat),
      ∃ r, CPU.execute (fuel + 1) (cpu0.reset mem0).1 1 ((cpu0.reset mem0).2.set 0xFFFC 0x02)
          = .finished r ∧
        r.cpu = { (cpu0.reset mem0).1 with PC := 0xFFFD } ∧
        r.mem = (cpu0.reset mem0).2.set 0xFFFC 0x02) := by
  constructor
  · obtain ⟨h1, h2, h3, h4⟩ := h
    have hb := CPU.executeBody_default s h1 h2 h3 h4
    have hcy : (s.cycles + 4294967295) % 4294967296 = s.cycles - 1 := by omega
    rw [hcy] at hb
    exact ⟨_, hb, rfl, rfl, rfl, rfl, fun fuel => CPU.executeLoop_succ fuel s _ (by omega) hb⟩
  · intro cpu0 mem0 fuel
    have hop : ((cpu0.reset mem0).2.set 0xFFFC 0x02).get 0xFFFC = 0x02 := by
      simp [Mem.get_set]
    have hb := CPU.executeBody_default
      ⟨(cpu0.reset mem0).1, (cpu0.reset mem0).2.set 0xFFFC 0x02, 1, []⟩
      (by show Mem.get _ 0xFFFC ≠ _; rw [hop]; decide)
      (by show Mem.get _ 0xFFFC ≠ _; rw [hop]; decide)
      (by show Mem.get _ 0xFFFC ≠ _; rw [hop]; decide)
      (by show Mem.get _ 0xFFFC ≠ _; rw [hop]; decide)
    exact ⟨_, (CPU.executeLoop_succ fuel _ _ Nat.zero_lt_one hb).trans
      (CPU.executeLoop_of_cycles_eq_zero _ _ (by
        show (1 + 4294967295) % 4294967296 = 0
        norm_num)), rfl, rfl⟩

/-- C9, at the opcode `0x02` found at `PC = 0xFFFC` with a budget of 1. -/
theorem unknown_opcode_round_witness :
    unhandled ((⟨fun _ => 0x02⟩ : Mem).get 0xFFFC) ∧
    ∃ s', CPU.executeBody ⟨⟨0xFFFC, 0x0100, 0, 0, 0, 0, 0, 0, 0, 0, 0, 0⟩, ⟨fun _ => 0x02⟩, 1, []⟩
        = some s' ∧
      s'.cpu = ⟨(0xFFFC + 1) % 65536, 0x0100, 0, 0, 0, 0, 0, 0, 0, 0, 0, 0⟩ ∧
      s'.cycles = 1 - 1 ∧ s'.mem = ⟨fun _ => 0x02⟩ ∧
      s'.out = [] ++ [(⟨fun _ => 0x02⟩ : Mem).get 0xFFFC] ∧
      (∀ fuel, CPU.executeLoop (fuel + 1)
          ⟨⟨0xFFFC, 0x0100, 0, 0, 0, 0, 0, 0, 0, 0, 0, 0⟩, ⟨fun _ => 0x02⟩, 1, []⟩
        = CPU.executeLoop fuel s') :=
  ⟨⟨by decide, by decide, by decide, by decide⟩,
    (unknown_opcode_round
      ⟨⟨0xFFFC, 0x0100, 0, 0, 0, 0, 0, 0, 0, 0, 0, 0⟩, ⟨fun _ => 0x02⟩, 1, []⟩
      ⟨by decide, by decide, by decide, by decide⟩ (by decide) (by decide)).1⟩

/-! ## Word stores -/

/-- C10 (`writeWord` at every address), evaluated at `a = 0xFFFF`: the index of the
second store is `address + 1` computed in `u32`, that is `0x10000` and not `0x0000`; it
is not below `MAX_MEM`, so the store of the high byte is outside the array, and the
call has no result in which the cell `0x0000` holds the high byte. -/
theorem write_word_at_last_address (m : Mem) (w cycles : Nat) :
    (0xFFFF + 1) % 4294967296 = 0x10000 ∧
    (0xFFFF + 1) % 4294967296 ≠ (0xFFFF + 1) % 65536 ∧
    ¬ ((0xFFFF + 1) % 4294967296 < MAX_MEM) ∧
    m.writeWord w 0xFFFF cycles = none ∧
    ¬ ∃ m' c', m.writeWord w 0xFFFF cycles = some (m', c') ∧
      m'.get 0xFFFF = w &&& 0xFF ∧ m'.get 0x0000 = (w >>> 8) &&& 0xFF := by
  have hn := Mem.writeWord_out_of_range m w 0xFFFF cycles (by decide)
  refine ⟨by decide, by decide, by rw [MAX_MEM_eq]; decide, hn, ?_⟩
  rintro ⟨m', c', hr, -⟩
  rw [hn] at hr
  exact Option.noConfusion hr

/-- Where both stores are inside the array, `writeWord` is little-endian: for every
word `w`, every address `a` in `0x0000..0xFFFE` and every memory, after
`writeWord(w, a, cycles)` the cell `a` holds `w & 0xFF`, the cell `a + 1` holds
`(w >> 8) & 0xFF` and every other cell is unchanged. -/
theorem write_word_little_endian (m : Mem) (w a cycles : Nat) (ha : a ≤ 0xFFFE) :
    (∃ m' c', m.writeWord w a cycles = some (m', c') ∧
      m'.get a = w &&& 0xFF ∧ m'.get (a + 1) = (w >>> 8) &&& 0xFF ∧
      (∀ b, b ≠ a → b ≠ a + 1 → m'.get b = m.get b)) ∧
    m.writeWord w 0xFFFF cycles = none := by
  refine ⟨⟨_, _, Mem.writeWord_in_range m w a cycles (by omega), ?_, ?_, ?_⟩,
    Mem.writeWord_out_of_range m w 0xFFFF cycles (by decide)⟩
  · rw [Mem.get_set, if_neg (by omega), Mem.get_set, if_pos rfl, and_255_mod,
      and_255_eq_mod]
  · rw [Mem.get_set, if_pos rfl, and_255_eq_mod]
  · intro b hb0 hb1
    rw [Mem.get_set, if_neg hb1, Mem.get_set, if_neg hb0]

/-- The little-endian store at `w = 0xABCD`, `a = 0xFFFE`. -/
theorem write_word_little_endian_witness :
    (0xFFFE ≤ 0xFFFE) ∧
    (∃ m' c', Mem.writeWord ⟨fun _ => 0⟩ 0xABCD 0xFFFE 2 = some (m', c') ∧
      m'.get 0xFFFE = 0xABCD &&& 0xFF ∧ m'.get (0xFFFE + 1) = (0xABCD >>> 8) &&& 0xFF ∧
      (∀ b, b ≠ 0xFFFE → b ≠ 0xFFFE + 1 → m'.get b = (⟨fun _ => 0⟩ : Mem).get b)) :=
  ⟨by decide, (write_word_little_endian ⟨fun _ => 0⟩ 0xABCD 0xFFFE 2 (by decide)).1⟩

/-! ## The fetch helpers -/

/-- C13 (the budget after `fetchWord`), evaluated: for a budget `c ≥ 2` the caller's
budget after `fetchWord` is `(c + 2) mod 2^32`, which is never `c - 2`: the helper adds
2 where it should subtract. -/
theorem fetch_word_adds_to_budget (cpu : CPU) (c : Nat) (memory : Mem) (h1 : 2 ≤ c)
    (h2 : c < 4294967296) :
    (cpu.fetchWord c memory).2.2 = (c + 2) % 4294967296 ∧
    (cpu.fetchWord c memory).2.2 ≠ c - 2 ∧
    (c + 2 < 4294967296 → (cpu.fetchWord c memory).2.2 = c + 2) := by
  have e : (cpu.fetchWord c memory).2.2 = (c + 2) % 4294967296 := rfl
  refine ⟨e, ?_, ?_⟩
  · rw [e]; omega
  · intro h; rw [e]; omega

/-- C13, at the budget 2: the budget after `fetchWord` is 4. -/
theorem fetch_word_adds_to_budget_witness :
    (CPU.fetchWord ⟨0xFFFD, 0x0100, 0, 0, 0, 0, 0, 0, 0, 0, 0, 0⟩ 2 ⟨fun _ => 0x42⟩).2.2
      = (2 + 2) % 4294967296 ∧
    (CPU.fetchWord ⟨0xFFFD, 0x0100, 0, 0, 0, 0, 0, 0, 0, 0, 0, 0⟩ 2 ⟨fun _ => 0x42⟩).2.2
      ≠ 2 - 2 ∧
    (2 + 2 < 4294967296 →
      (CPU.fetchWord ⟨0xFFFD, 0x0100, 0, 0, 0, 0, 0, 0, 0, 0, 0, 0⟩ 2 ⟨fun _ => 0x42⟩).2.2
        = 2 + 2) :=
  fetch_word_adds_to_budget _ 2 _ (by decide) (by decide)

/-- C14 (the budget after `writeWord`), evaluated: in the JSR arm, entered with a budget
`c`, `writeWord` is called with the budget `c + 1`; its own copy of `cycles` ends at
`c - 1`, but the caller goes on with `c + 1`, so that the round ends at `c` after the
last `cycles--`, not at `c - 2`. -/
theorem write_word_debits_a_copy (s : Machine) (hop : s.mem.get s.cpu.PC = 0x20)
    (hSP : s.cpu.SP + 1 < 65536) (hc1 : 1 ≤ s.cycles) (hc2 : s.cycles + 1 < 4294967296) :
    (s.cpu.fetchWord (s.cpu.fetchByte s.cycles s.mem).2.2 s.mem).2.2 = s.cycles + 1 ∧
    ∃ s' m' c', s.mem.writeWord ((s.cpu.PC + 2) % 65536) s.cpu.SP (s.cycles + 1)
        = some (m', c') ∧
      c' = s.cycles + 1 - 2 ∧
      CPU.executeBody s = some s' ∧ s'.mem = m' ∧
      s'.cycles = s.cycles + 1 - 1 ∧ s'.cycles ≠ s.cycles + 1 - 2 - 1 := by
  obtain ⟨s', hb, -, hm, hy, -⟩ := CPU.executeBody_JSR_spec s hop hSP (by omega) (by omega)
  have hw := Mem.writeWord_in_range s.mem ((s.cpu.PC + 2) % 65536) s.cpu.SP
    (s.cycles + 1) hSP
  have hhi : ((s.cpu.PC + 2) % 65536 / 256) % 256 = (s.cpu.PC + 2) % 65536 / 256 := by
    omega
  have hcy : (s.cycles + 1 + 4294967294) % 4294967296 = s.cycles + 1 - 2 := by omega
  rw [and_255_mod, shiftRight_8, hhi, hcy] at hw
  refine ⟨?_, s', _, _, hw, rfl, hb, hm, by omega, by omega⟩
  show ((s.cycles + 4294967295) % 4294967296 + 2) % 4294967296 = s.cycles + 1
  omega

/-- C14, at a JSR found at `0xFFFC` with `SP = 0x0100` and a budget of 9. -/
theorem write_word_debits_a_copy_witness :
    ∃ s' m' c', Mem.writeWord ⟨fun _ => 0x20⟩ ((0xFFFC + 2) % 65536) 0x0100 (9 + 1)
        = some (m', c') ∧
      c' = 9 + 1 - 2 ∧
      CPU.executeBody ⟨⟨0xFFFC, 0x0100, 0, 0, 0, 0, 0, 0, 0, 0, 0, 0⟩, ⟨fun _ => 0x20⟩, 9, []⟩
        = some s' ∧ s'.mem = m' ∧
      s'.cycles = 9 + 1 - 1 ∧ s'.cycles ≠ 9 + 1 - 2 - 1 :=
  (write_word_debits_a_copy
    ⟨⟨0xFFFC, 0x0100, 0, 0, 0, 0, 0, 0, 0, 0, 0, 0⟩, ⟨fun _ => 0x20⟩, 9, []⟩
    rfl (by decide) (by decide) (by decide)).2

/-- C15 (`fetchWord` reads a little-endian word): with `PC = p`, `fetchWord` returns
`mem[p] | (mem[(p + 1) mod 65536] << 8)` and sets `PC` to `(p + 2) mod 65536`, every
other register and flag being as before (the memory is only read); at `p = 0xFFFF` the
high byte is the cell `0x0000` and `PC` becomes `0x0001`. -/
theorem fetch_word_little_endian (cpu : CPU) (c : Nat) (memory : Mem) (hm : memory.WF)
    (hp : cpu.PC < 65536) :
    (cpu.fetchWord c memory).1
      = memory.get cpu.PC ||| (memory.get ((cpu.PC + 1) % 65536) <<< 8) ∧
    (cpu.fetchWord c memory).2.1 = { cpu with PC := (cpu.PC + 2) % 65536 } ∧
    (cpu.PC = 0xFFFF →
      (cpu.fetchWord c memory).1 = memory.get 0xFFFF ||| (memory.get 0x0000 <<< 8) ∧
      (cpu.fetchWord c memory).2.1.PC = 0x0001) := by
  have hlo : memory.get cpu.PC < 256 := hm _ (by rw [MAX_MEM_eq]; exact hp)
  have hhi : memory.get ((cpu.PC + 1) % 65536) < 256 := hm _ (by rw [MAX_MEM_eq]; omega)
  have e1 : (cpu.fetchWord c memory).1
      = (memory.get cpu.PC ||| (memory.get ((cpu.PC + 1) % 65536) <<< 8)) % 65536 := rfl
  have e2 : (cpu.fetchWord c memory).2.1
      = { cpu with PC := ((cpu.PC + 1) % 65536 + 1) % 65536 } := rfl
  have hp2 : ((cpu.PC + 1) % 65536 + 1) % 65536 = (cpu.PC + 2) % 65536 := by omega
  rw [Nat.mod_eq_of_lt (word_of_bytes_lt _ _ hlo hhi)] at e1
  rw [hp2] at e2
  refine ⟨e1, e2, ?_⟩
  intro hF
  rw [e1, e2, hF]
  exact ⟨rfl, rfl⟩

/-- C15, at `p = 0xFFFF` in a memory filled with `0x42`. -/
theorem fetch_word_little_endian_witness :
    (CPU.fetchWord ⟨0xFFFF, 0x0100, 0, 0, 0, 0, 0, 0, 0, 0, 0, 0⟩ 2 ⟨fun _ => 0x42⟩).1
      = (⟨fun _ => 0x42⟩ : Mem).get 0xFFFF |||
        ((⟨fun _ => 0x42⟩ : Mem).get ((0xFFFF + 1) % 65536) <<< 8) ∧
    (CPU.fetchWord ⟨0xFFFF, 0x0100, 0, 0, 0, 0, 0, 0, 0, 0, 0, 0⟩ 2 ⟨fun _ => 0x42⟩).2.1
      = ⟨(0xFFFF + 2) % 65536, 0x0100, 0, 0, 0, 0, 0, 0, 0, 0, 0, 0⟩ :=
  ⟨(fetch_word_little_endian ⟨0xFFFF, 0x0100, 0, 0, 0, 0, 0, 0, 0, 0, 0, 0⟩ 2
      ⟨fun _ => 0x42⟩ (fun _ _ => (by decide : (0x42 : Nat) < 256)) (by decide)).1,
   (fetch_word_little_endian ⟨0xFFFF, 0x0100, 0, 0, 0, 0, 0, 0, 0, 0, 0, 0⟩ 2
      ⟨fun _ => 0x42⟩ (fun _ _ => (by decide : (0x42 : Nat) < 256)) (by decide)).2.1⟩

/-- C16 (`fetchByte` consumes one byte of the instruction stream): with `PC = p` and a
budget `c ≥ 1`, `fetchByte` returns `mem[p]`, sets `PC` to `(p + 1) mod 65536` (so
`0xFFFF` becomes `0x0000`), leaves the budget at `c - 1` and every other register and
flag as before (the memory is only read). -/
theorem fetch_byte_consumes_one (cpu : CPU) (c : Nat) (memory : Mem) (hc1 : 1 ≤ c)
    (hc2 : c < 4294967296) :
    (cpu.fetchByte c memory).1 = memory.get cpu.PC ∧
    (cpu.fetchByte c memory).2.1 = { cpu with PC := (cpu.PC + 1) % 65536 } ∧
    (cpu.fetchByte c memory).2.2 = c - 1 ∧
    (cpu.PC = 0xFFFF → (cpu.fetchByte c memory).2.1.PC = 0x0000) := by
  refine ⟨rfl, rfl, ?_, ?_⟩
  · show (c + 4294967295) % 4294967296 = c - 1
    omega
  · intro hF
    show (cpu.PC + 1) % 65536 = 0
    rw [hF]

/-- C16, at `p = 0xFFFF` with a budget of 1. -/
theorem fetch_byte_consumes_one_witness :
    (CPU.fetchByte ⟨0xFFFF, 0x0100, 0, 0, 0, 0, 0, 0, 0, 0, 0, 0⟩ 1 ⟨fun _ => 0x42⟩).1
      = (⟨fun _ => 0x42⟩ : Mem).get 0xFFFF ∧
    (CPU.fetchByte ⟨0xFFFF, 0x0100, 0, 0, 0, 0, 0, 0, 0, 0, 0, 0⟩ 1 ⟨fun _ => 0x42⟩).2.1
      = ⟨(0xFFFF + 1) % 65536, 0x0100, 0, 0, 0, 0, 0, 0, 0, 0, 0, 0⟩ ∧
    (CPU.fetchByte ⟨0xFFFF, 0x0100, 0, 0, 0, 0, 0, 0, 0, 0, 0, 0⟩ 1 ⟨fun _ => 0x42⟩).2.2
      = 1 - 1 :=
  ⟨(fetch_byte_consumes_one _ 1 _ (by decide) (by decide)).1,
   (fetch_byte_consumes_one _ 1 _ (by decide) (by decide)).2.1,
   (fetch_byte_consumes_one _ 1 _ (by decide) (by decide)).2.2.1⟩

/-- C17 (the flag update policy): after `LDASetStatus`, `Z` is 1 if `A = 0` and 0
otherwise, `N` is 1 if bit 7 of `A` is set (`A & 0x80 ≠ 0`) and 0 otherwise, the flags
`C`, `I`, `D`, `B`, `V` and the registers `A`, `X`, `Y`, `PC`, `SP` are as before, and `Z`
and `N` are never both 1. -/
theorem lda_set_status_policy (c : CPU) :
    (CPU.LDASetStatus c).Z = (if c.A = 0 then 1 else 0) ∧
    ((CPU.LDASetStatus c).Z = 1 ↔ c.A = 0) ∧
    (CPU.LDASetStatus c).N = (if c.A &&& 0x80 ≠ 0 then 1 else 0) ∧
    ((CPU.LDASetStatus c).N = 1 ↔ c.A &&& 0x80 ≠ 0) ∧
    ((CPU.LDASetStatus c).N = 1 ↔ c.A.testBit 7 = true) ∧
    (CPU.LDASetStatus c).C = c.C ∧ (CPU.LDASetStatus c).I = c.I ∧
    (CPU.LDASetStatus c).D = c.D ∧ (CPU.LDASetStatus c).B = c.B ∧
    (CPU.LDASetStatus c).V = c.V ∧
    (CPU.LDASetStatus c).A = c.A ∧ (CPU.LDASetStatus c).X = c.X ∧
    (CPU.LDASetStatus c).Y = c.Y ∧ (CPU.LDASetStatus c).PC = c.PC ∧
    (CPU.LDASetStatus c).SP = c.SP ∧
    ¬ ((CPU.LDASetStatus c).Z = 1 ∧ (CPU.LDASetStatus c).N = 1) := by
  have hpos : (c.A &&& 0x80 ≠ 0) ↔ c.A.testBit 7 = true := by
    rw [← and_128_pos_iff]; exact Nat.pos_iff_ne_zero.symm
  have hN : (CPU.LDASetStatus c).N = (if c.A &&& 0x80 ≠ 0 then 1 else 0) := by
    rw [CPU.LDASetStatus_N]
    by_cases h : c.A.testBit 7 = true
    · rw [if_pos h, if_pos (hpos.2 h)]
    · rw [if_neg h, if_neg (fun h' => h (hpos.1 h'))]
  refine ⟨CPU.LDASetStatus_Z c, CPU.LDASetStatus_Z_iff c, hN,
    (CPU.LDASetStatus_N_iff c).trans hpos.symm, CPU.LDASetStatus_N_iff c,
    rfl, rfl, rfl, rfl, rfl, rfl, rfl, rfl, rfl, rfl, ?_⟩
  rintro ⟨hz, hn⟩
  have h0 := (CPU.LDASetStatus_Z_iff c).1 hz
  have h7 := (CPU.LDASetStatus_N_iff c).1 hn
  rw [h0] at h7
  simp at h7

/-! ## The budget across the loop -/

/-- C11 (the budget never grows across a round), evaluated: from the reset state with
`mem[0xFFFC] = 0xA9`, a round started with the budget 1 makes two `cycles--` on a `u32`
and hands the budget `4294967295` to the next evaluation of the loop guard. -/
theorem lda_immediate_overdraws_budget (cpu0 : CPU) (mem0 : Mem) :
    ∃ s', CPU.executeBody ⟨(cpu0.reset mem0).1, (cpu0.reset mem0).2.set 0xFFFC 0xA9, 1, []⟩
        = some s' ∧
      (∀ fuel, CPU.executeLoop (fuel + 1)
          ⟨(cpu0.reset mem0).1, (cpu0.reset mem0).2.set 0xFFFC 0xA9, 1, []⟩
        = CPU.executeLoop fuel s') ∧
      s'.cycles = 4294967295 ∧ ¬ s'.cycles ≤ 1 := by
  have hop : ((cpu0.reset mem0).2.set 0xFFFC 0xA9).get 0xFFFC = 0xA9 := by
    simp [Mem.get_set]
  have hb := CPU.executeBody_LDA_IM
    ⟨(cpu0.reset mem0).1, (cpu0.reset mem0).2.set 0xFFFC 0xA9, 1, []⟩ hop
  have hcy : ((1 + 4294967295) % 4294967296 + 4294967295) % 4294967296 = 4294967295 := by
    norm_num
  refine ⟨_, hb, fun fuel => CPU.executeLoop_succ fuel _ _ Nat.zero_lt_one hb, hcy, ?_⟩
  show ¬ ((1 + 4294967295) % 4294967296 + 4294967295) % 4294967296 ≤ 1
  rw [hcy]; norm_num

/-- A JSR whose target is its own address: every round ends in the state it started
from, as far as the loop can tell, with the budget it started with. -/
theorem CPU.executeLoop_jsr_self (fuel : Nat) (s : Machine) (hPC : s.cpu.PC = 0xFFFC)
    (hSP : s.cpu.SP = 0x0100) (h1 : s.mem.get 0xFFFC = 0x20) (h2 : s.mem.get 0xFFFD = 0xFC)
    (h3 : s.mem.get 0xFFFE = 0xFF) (hc1 : 0 < s.cycles) (hc2 : s.cycles < 4294967296) :
    CPU.executeLoop fuel s = .unfinished := by
  induction fuel generalizing s with
  | zero => simp [CPU.executeLoop, hc1]
  | succ n ih =>
    obtain ⟨s', hb, hc, hm, hy, -⟩ := CPU.executeBody_JSR_spec s
      (by rw [hPC]; exact h1) (by rw [hSP]; norm_num) hc1 hc2
    rw [hPC, hSP] at hm
    rw [hPC] at hc
    norm_num at hc hm
    rw [h2, h3, show (252 ||| 255 <<< 8) % 65536 = 65532 by decide] at hc
    have g : ∀ a, a ≠ 256 → a ≠ 257 → s'.mem.get a = s.mem.get a := by
      intro a ha hb'
      rw [hm, Mem.get_set, if_neg hb', Mem.get_set, if_neg ha]
    rw [CPU.executeLoop_succ n s s' hc1 hb]
    exact ih s' (by rw [hc]) (by rw [hc]; exact hSP)
      (by rw [g _ (by norm_num) (by norm_num)]; exact h1)
      (by rw [g _ (by norm_num) (by norm_num)]; exact h2)
      (by rw [g _ (by norm_num) (by norm_num)]; exact h3)
      (by rw [hy]; exact hc1) (by rw [hy]; exact hc2)

/-- C12 (`execute` terminates), evaluated: from the reset state with a JSR at `0xFFFC`
whose target is `0xFFFC`, `execute(c)` with `1 ≤ c` never reaches an evaluation of the
loop guard with the budget exhausted: whatever the number of rounds allowed, the guard
is still true after them. -/
theorem jsr_self_loop_never_finishes (cpu0 : CPU) (mem0 : Mem) (c : Nat) (hc1 : 1 ≤ c)
    (hc2 : c < 4294967296) (fuel : Nat) :
    CPU.execute fuel (cpu0.reset mem0).1 c
      ((((cpu0.reset mem0).2.set 0xFFFC 0x20).set 0xFFFD 0xFC).set 0xFFFE 0xFF)
      = .unfinished ∧
    ¬ ∃ r, CPU.execute fuel (cpu0.reset mem0).1 c
      ((((cpu0.reset mem0).2.set 0xFFFC 0x20).set 0xFFFD 0xFC).set 0xFFFE 0xFF)
      = .finished r := by
  have h : CPU.execute fuel (cpu0.reset mem0).1 c
      ((((cpu0.reset mem0).2.set 0xFFFC 0x20).set 0xFFFD 0xFC).set 0xFFFE 0xFF)
      = .unfinished :=
    CPU.executeLoop_jsr_self fuel _ rfl rfl (by simp [Mem.get_set]) (by simp [Mem.get_set])
      (by simp [Mem.get_set]) hc1 hc2
  refine ⟨h, ?_⟩
  rintro ⟨r, hr⟩
  rw [h] at hr
  exact Outcome.noConfusion hr

/-- C12, at the budget 6 and a bound of 1000 rounds. -/
theorem jsr_self_loop_never_finishes_witness :
    CPU.execute 1000 ((⟨0, 0, 0, 0, 0, 0, 0, 0, 0, 0, 0, 0⟩ : CPU).reset ⟨fun _ => 7⟩).1 6
      (((((⟨0, 0, 0, 0, 0, 0, 0, 0, 0, 0, 0, 0⟩ : CPU).reset ⟨fun _ => 7⟩).2.set
        0xFFFC 0x20).set 0xFFFD 0xFC).set 0xFFFE 0xFF)
      = .unfinished :=
  (jsr_self_loop_never_finishes _ _ 6 (by decide) (by decide) 1000).1

/-! ## What a round can change -/

/-- A round that is not a JSR with `SP = 0xFFFF` (or beyond) completes. -/
theorem CPU.executeBody_completes (s : Machine)
    (h : s.mem.get s.cpu.PC ≠ 0x20 ∨ s.cpu.SP + 1 < 65536) :
    ∃ s', CPU.executeBody s = some s' := by
  by_cases h1 : s.mem.get s.cpu.PC = 0xA9
  · exact ⟨_, CPU.executeBody_LDA_IM s h1⟩
  by_cases h2 : s.mem.get s.cpu.PC = 0xA5
  · exact ⟨_, CPU.executeBody_LDA_ZP s h2⟩
  by_cases h3 : s.mem.get s.cpu.PC = 0xB5
  · exact ⟨_, CPU.executeBody_LDA_ZPX s h3⟩
  by_cases h4 : s.mem.get s.cpu.PC = 0x20
  · cases h with
    | inl h => exact absurd h4 h
    | inr h => exact ⟨_, CPU.executeBody_JSR s h4 h⟩
  · exact ⟨_, CPU.executeBody_default s h1 h2 h3 h4⟩

/-- The registers and flags that no arm of the `switch` assigns. -/
theorem CPU.executeBody_regs (s s' : Machine) (h : CPU.executeBody s = some s') :
    s'.cpu.X = s.cpu.X ∧ s'.cpu.Y = s.cpu.Y ∧ s'.cpu.SP = s.cpu.SP ∧
    s'.cpu.C = s.cpu.C ∧ s'.cpu.I = s.cpu.I ∧ s'.cpu.D = s.cpu.D ∧
    s'.cpu.B = s.cpu.B ∧ s'.cpu.V = s.cpu.V := by
  by_cases h1 : s.mem.get s.cpu.PC = 0xA9
  · rw [CPU.executeBody_LDA_IM s h1] at h
    cases h
    exact ⟨rfl, rfl, rfl, rfl, rfl, rfl, rfl, rfl⟩
  by_cases h2 : s.mem.get s.cpu.PC = 0xA5
  · rw [CPU.executeBody_LDA_ZP s h2] at h
    cases h
    exact ⟨rfl, rfl, rfl, rfl, rfl, rfl, rfl, rfl⟩
  by_cases h3 : s.mem.get s.cpu.PC = 0xB5
  · rw [CPU.executeBody_LDA_ZPX s h3] at h
    cases h
    exact ⟨rfl, rfl, rfl, rfl, rfl, rfl, rfl, rfl⟩
  by_cases h4 : s.mem.get s.cpu.PC = 0x20
  · by_cases hSP : s.cpu.SP + 1 < 65536
    · rw [CPU.executeBody_JSR s h4 hSP] at h
      cases h
      exact ⟨rfl, rfl, rfl, rfl, rfl, rfl, rfl, rfl⟩
    · rw [CPU.executeBody_JSR_fault s h4 (by omega)] at h
      exact Option.noConfusion h
  · rw [CPU.executeBody_default s h1 h2 h3 h4] at h
    cases h
    exact ⟨rfl, rfl, rfl, rfl, rfl, rfl, rfl, rfl⟩

/-- The memory cells that a round can store into: none, or `SP` and `SP + 1` in the
JSR arm. -/
theorem CPU.executeBody_mem (s s' : Machine) (h : CPU.executeBody s = some s') :
    (s.mem.get s.cpu.PC ≠ 0x20 → s'.mem = s.mem) ∧
    (∀ b, b ≠ s.cpu.SP → b ≠ s.cpu.SP + 1 → s'.mem.get b = s.mem.get b) := by
  by_cases h1 : s.mem.get s.cpu.PC = 0xA9
  · rw [CPU.executeBody_LDA_IM s h1] at h
    cases h
    exact ⟨fun _ => rfl, fun _ _ _ => rfl⟩
  by_cases h2 : s.mem.get s.cpu.PC = 0xA5
  · rw [CPU.executeBody_LDA_ZP s h2] at h
    cases h
    exact ⟨fun _ => rfl, fun _ _ _ => rfl⟩
  by_cases h3 : s.mem.get s.cpu.PC = 0xB5
  · rw [CPU.executeBody_LDA_ZPX s h3] at h
    cases h
    exact ⟨fun _ => rfl, fun _ _ _ => rfl⟩
  by_cases h4 : s.mem.get s.cpu.PC = 0x20
  · by_cases hSP : s.cpu.SP + 1 < 65536
    · rw [CPU.executeBody_JSR s h4 hSP] at h
      cases h
      refine ⟨fun hne => absurd h4 hne, ?_⟩
      intro b hb0 hb1
      show ((s.mem.set s.cpu.SP _).set (s.cpu.SP + 1) _).get b = _
      rw [Mem.get_set, if_neg hb1, Mem.get_set, if_neg hb0]
    · rw [CPU.executeBody_JSR_fault s h4 (by omega)] at h
      exact Option.noConfusion h
  · rw [CPU.executeBody_default s h1 h2 h3 h4] at h
    cases h
    exact ⟨fun _ => rfl, fun _ _ _ => rfl⟩

theorem CPU.executeLoop_regs (fuel : Nat) (s r : Machine)
    (h : CPU.executeLoop fuel s = .finished r) :
    r.cpu.X = s.cpu.X ∧ r.cpu.Y = s.cpu.Y ∧ r.cpu.SP = s.cpu.SP ∧
    r.cpu.C = s.cpu.C ∧ r.cpu.I = s.cpu.I ∧ r.cpu.D = s.cpu.D ∧
    r.cpu.B = s.cpu.B ∧ r.cpu.V = s.cpu.V := by
  induction fuel generalizing s with
  | zero =>
    by_cases hc : s.cycles > 0
    · simp [CPU.executeLoop, hc] at h
    · have hr : s = r := by simpa [CPU.executeLoop, hc] using h
      subst hr
      exact ⟨rfl, rfl, rfl, rfl, rfl, rfl, rfl, rfl⟩
  | succ n ih =>
    by_cases hc : s.cycles > 0
    · cases hb : CPU.executeBody s with
      | none => simp [CPU.executeLoop, hc, hb] at h
      | some s' =>
        rw [CPU.executeLoop_succ n s s' hc hb] at h
        obtain ⟨a1, a2, a3, a4, a5, a6, a7, a8⟩ := ih s' h
        obtain ⟨b1, b2, b3, b4, b5, b6, b7, b8⟩ := CPU.executeBody_regs s s' hb
        exact ⟨a1.trans b1, a2.trans b2, a3.trans b3, a4.trans b4, a5.trans b5,
          a6.trans b6, a7.trans b7, a8.trans b8⟩
    · have h0 : s.cycles = 0 := by omega
      rw [CPU.executeLoop_of_cycles_eq_zero _ s h0] at h
      cases h
      exact ⟨rfl, rfl, rfl, rfl, rfl, rfl, rfl, rfl⟩

theorem CPU.executeLoop_mem (fuel : Nat) (s r : Machine) (hSP : s.cpu.SP = 0x0100)
    (h : CPU.executeLoop fuel s = .finished r) :
    ∀ b, b ≠ 0x0100 → b ≠ 0x0101 → r.mem.get b = s.mem.get b := by
  induction fuel generalizing s with
  | zero =>
    by_cases hc : s.cycles > 0
    · simp [CPU.executeLoop, hc] at h
    · have hr : s = r := by simpa [CPU.executeLoop, hc] using h
      subst hr
      exact fun _ _ _ => rfl
  | succ n ih =>
    by_cases hc : s.cycles > 0
    · cases hb : CPU.executeBody s with
      | none => simp [CPU.executeLoop, hc, hb] at h
      | some s' =>
        rw [CPU.executeLoop_succ n s s' hc hb] at h
        have hSP' : s'.cpu.SP = 0x0100 := (CPU.executeBody_regs s s' hb).2.2.1.trans hSP
        intro b hb0 hb1
        rw [ih s' hSP' h b hb0 hb1]
        exact (CPU.executeBody_mem s s' hb).2 b (by rw [hSP]; exact hb0)
          (by rw [hSP]; exact hb1)
    · have h0 : s.cycles = 0 := by omega
      rw [CPU.executeLoop_of_cycles_eq_zero _ s h0] at h
      cases h
      exact fun _ _ _ => rfl

/-- C18 (the register frame of `execute`): a round of the loop leaves `X`, `Y`, `SP` and
the flags `C`, `I`, `D`, `B`, `V` as they were, for every state and opcode (a round
completes unless it is a JSR whose store leaves the memory array); hence a call of
`execute` that ends leaves these eight components as they were before the call. -/
theorem execute_register_frame (s s' : Machine) (h : CPU.executeBody s = some s') :
    (s'.cpu.X = s.cpu.X ∧ s'.cpu.Y = s.cpu.Y ∧ s'.cpu.SP = s.cpu.SP ∧
      s'.cpu.C = s.cpu.C ∧ s'.cpu.I = s.cpu.I ∧ s'.cpu.D = s.cpu.D ∧
      s'.cpu.B = s.cpu.B ∧ s'.cpu.V = s.cpu.V) ∧
    (∀ t : Machine, t.mem.get t.cpu.PC ≠ 0x20 ∨ t.cpu.SP + 1 < 65536 →
      ∃ t', CPU.executeBody t = some t') ∧
    (∀ (fuel : Nat) (cpu : CPU) (cycles : Nat) (memory : Mem) (r : Machine),
      CPU.execute fuel cpu cycles memory = .finished r →
      r.cpu.X = cpu.X ∧ r.cpu.Y = cpu.Y ∧ r.cpu.SP = cpu.SP ∧
      r.cpu.C = cpu.C ∧ r.cpu.I = cpu.I ∧ r.cpu.D = cpu.D ∧
      r.cpu.B = cpu.B ∧ r.cpu.V = cpu.V) :=
  ⟨CPU.executeBody_regs s s' h, CPU.executeBody_completes,
    fun fuel cpu cycles memory r hr => CPU.executeLoop_regs fuel ⟨cpu, memory, cycles, []⟩ r hr⟩

/-- C19 (the memory frame of `execute`): a round whose opcode is not `0x20` leaves
every memory cell as it was, and a round whose opcode is `0x20` changes at most the
cells `SP` and `SP + 1`; hence a call of `execute` that ends, started with
`SP = 0x0100`, leaves every cell other than `0x0100` and `0x0101` as it was. -/
theorem execute_memory_frame (s s' : Machine) (h : CPU.executeBody s = some s') :
    (s.mem.get s.cpu.PC ≠ 0x20 → s'.mem = s.mem) ∧
    (s.mem.get s.cpu.PC = 0x20 →
      ∀ b, b ≠ s.cpu.SP → b ≠ s.cpu.SP + 1 → s'.mem.get b = s.mem.get b) ∧
    (∀ (fuel : Nat) (cpu : CPU) (cycles : Nat) (memory : Mem) (r : Machine),
      cpu.SP = 0x0100 → CPU.execute fuel cpu cycles memory = .finished r →
      ∀ b, b ≠ 0x0100 → b ≠ 0x0101 → r.mem.get b = memory.get b) :=
  ⟨(CPU.executeBody_mem s s' h).1, fun _ => (CPU.executeBody_mem s s' h).2,
    fun fuel cpu cycles memory r hSP hr =>
      CPU.executeLoop_mem fuel ⟨cpu, memory, cycles, []⟩ r hSP hr⟩

/-- C18, at a JSR round with `X = 2`, `Y = 3`, `SP = 0x0100` and the flags `C`, `D`, `V`
set. -/
theorem execute_register_frame_witness :
    ∃ s', CPU.executeBody
        ⟨⟨0xFFFC, 0x0100, 1, 2, 3, 1, 0, 0, 1, 0, 1, 0⟩, ⟨fun _ => 0x20⟩, 6, []⟩ = some s' ∧
      s'.cpu.X = 2 ∧ s'.cpu.Y = 3 ∧ s'.cpu.SP = 0x0100 ∧ s'.cpu.C = 1 ∧ s'.cpu.I = 0 ∧
      s'.cpu.D = 1 ∧ s'.cpu.B = 0 ∧ s'.cpu.V = 1 := by
  have hb := CPU.executeBody_JSR
    ⟨⟨0xFFFC, 0x0100, 1, 2, 3, 1, 0, 0, 1, 0, 1, 0⟩, ⟨fun _ => 0x20⟩, 6, []⟩ rfl (by decide)
  exact ⟨_, hb, (execute_register_frame _ _ hb).1⟩

/-- C19, at a JSR round with `SP = 0x0100`. -/
theorem execute_memory_frame_witness :
    ∃ s', CPU.executeBody
        ⟨⟨0xFFFC, 0x0100, 1, 2, 3, 1, 0, 0, 1, 0, 1, 0⟩, ⟨fun _ => 0x20⟩, 6, []⟩ = some s' ∧
      ∀ b, b ≠ 0x0100 → b ≠ 0x0100 + 1 → s'.mem.get b = (⟨fun _ => 0x20⟩ : Mem).get b := by
  have hb := CPU.executeBody_JSR
    ⟨⟨0xFFFC, 0x0100, 1, 2, 3, 1, 0, 0, 1, 0, 1, 0⟩, ⟨fun _ => 0x20⟩, 6, []⟩ rfl (by decide)
  exact ⟨_, hb, (execute_memory_frame _ _ hb).2.1 rfl⟩

/-! ## The empty program -/

/-- A stretch of unhandled opcodes longer than the number of rounds allowed: the budget
is still positive after them. -/
theorem CPU.executeLoop_unhandled_prefix (k n : Nat) (s : Machine) (hcyc : s.cycles = n)
    (hn : n < 4294967296) (hk : k < n)
    (hops : ∀ i, i < n → unhandled (s.mem.get ((s.cpu.PC + i) % 65536)))
    (hPC : s.cpu.PC < 65536) :
    CPU.executeLoop k s = .unfinished := by
  induction k generalizing s n with
  | zero =>
    have hc : s.cycles > 0 := by omega
    simp [CPU.executeLoop, hc]
  | succ k ih =>
    have h0 := hops 0 (by omega)
    rw [Nat.add_zero, Nat.mod_eq_of_lt hPC] at h0
    obtain ⟨h1, h2, h3, h4⟩ := h0
    have hb := CPU.executeBody_default s h1 h2 h3 h4
    have hcy : (s.cycles + 4294967295) % 4294967296 = n - 1 := by omega
    rw [hcy] at hb
    generalize hs1 : ({ s with
      cpu := { s.cpu with PC := (s.cpu.PC + 1) % 65536 },
      cycles := n - 1,
      out := s.out ++ [s.mem.get s.cpu.PC] } : Machine) = s1 at hb
    have e2 : s1.mem = s.mem := by rw [← hs1]
    have e3 : s1.cycles = n - 1 := by rw [← hs1]
    have e4 : s1.cpu.PC = (s.cpu.PC + 1) % 65536 := by rw [← hs1]
    rw [CPU.executeLoop_succ k s s1 (by omega) hb]
    exact ih (n - 1) s1 e3 (by omega) (by omega)
      (by
        intro i hi
        have := hops (i + 1) (by omega)
        have e : ((s.cpu.PC + 1) % 65536 + i) % 65536 = (s.cpu.PC + (i + 1)) % 65536 := by
          omega
        rw [e2, e4, e]; exact this)
      (by rw [e4]; exact Nat.mod_lt _ (by norm_num))

/-- C20 (the empty-program run): `execute(n)` called on the state that `reset` leaves
ends after exactly `n` rounds of its loop, with `PC = (0xFFFC + n) mod 65536` and with
`A`, `X`, `Y`, `SP`, every flag and the whole memory as `reset` left them. -/
theorem empty_program_run (cpu0 : CPU) (mem0 : Mem) (n : Nat) (hn : n < 4294967296) :
    ∃ r, CPU.execute n (cpu0.reset mem0).1 n (cpu0.reset mem0).2 = .finished r ∧
      (∀ k, k < n →
        CPU.execute k (cpu0.reset mem0).1 n (cpu0.reset mem0).2 = .unfinished) ∧
      (∀ j, CPU.execute (n + j) (cpu0.reset mem0).1 n (cpu0.reset mem0).2 = .finished r) ∧
      r.cpu = { (cpu0.reset mem0).1 with PC := (0xFFFC + n) % 65536 } ∧
      r.mem = (cpu0.reset mem0).2 := by
  have hops : ∀ i, i < n →
      unhandled ((cpu0.reset mem0).2.get ((0xFFFC + i) % 65536)) := by
    intro i _
    have hlt : (0xFFFC + i) % 65536 < 65536 := Nat.mod_lt _ (by norm_num)
    rw [CPU.reset_mem, Mem.initializeMem_get, if_pos hlt]
    exact ⟨by decide, by decide, by decide, by decide⟩
  obtain ⟨r, hr, hc, hm, -⟩ := CPU.executeLoop_unhandled_run n
    ⟨(cpu0.reset mem0).1, (cpu0.reset mem0).2, n, []⟩ rfl hn hops
    (by show (0xFFFC : Nat) < 65536; norm_num)
  refine ⟨r, hr, ?_, ?_, hc, hm⟩
  · intro k hk
    exact CPU.executeLoop_unhandled_prefix k n
      ⟨(cpu0.reset mem0).1, (cpu0.reset mem0).2, n, []⟩ rfl hn hk hops
      (by show (0xFFFC : Nat) < 65536; norm_num)
  · intro j
    exact CPU.executeLoop_finished_add n _ r hr j

/-- C20, at the budget 5: the run ends after 5 rounds with `PC = 0x0001`. -/
theorem empty_program_run_witness :
    (5 < 4294967296) ∧ ((0xFFFC + 5) % 65536 = 0x0001) ∧
    ∃ r, CPU.execute 5 ((⟨1, 2, 3, 4, 5, 1, 1, 1, 1, 1, 1, 1⟩ : CPU).reset ⟨fun _ => 7⟩).1 5
        ((⟨1, 2, 3, 4, 5, 1, 1, 1, 1, 1, 1, 1⟩ : CPU).reset ⟨fun _ => 7⟩).2 = .finished r ∧
      (∀ k, k < 5 →
        CPU.execute k ((⟨1, 2, 3, 4, 5, 1, 1, 1, 1, 1, 1, 1⟩ : CPU).reset ⟨fun _ => 7⟩).1 5
          ((⟨1, 2, 3, 4, 5, 1, 1, 1, 1, 1, 1, 1⟩ : CPU).reset ⟨fun _ => 7⟩).2
          = .unfinished) ∧
      (∀ j, CPU.execute (5 + j)
          ((⟨1, 2, 3, 4, 5, 1, 1, 1, 1, 1, 1, 1⟩ : CPU).reset ⟨fun _ => 7⟩).1 5
          ((⟨1, 2, 3, 4, 5, 1, 1, 1, 1, 1, 1, 1⟩ : CPU).reset ⟨fun _ => 7⟩).2
          = .finished r) ∧
      r.cpu = ⟨(0xFFFC + 5) % 65536, 0x0100, 0, 0, 0, 0, 0, 0, 0, 0, 0, 0⟩ ∧
      r.mem = ((⟨1, 2, 3, 4, 5, 1, 1, 1, 1, 1, 1, 1⟩ : CPU).reset ⟨fun _ => 7⟩).2 :=
  ⟨by decide, by decide, empty_program_run _ _ 5 (by decide)⟩

end Emu6502
